import Mathlib

/-!
Verification development for the Easynews bridge repository
(`server.py`, `easynews_client.py`).

The Python source is shallowly embedded: strings are modelled as lists of
Unicode code points (`List Nat`) in the token codec, and as Lean `String`
in the filtering pipeline; bytes are `Nat` values below 256.  Python's
Unicode-aware character classes (`\w`, `\s`, `str.isdigit`, `str.isalnum`,
`str.lower`) are modelled on their ASCII subsets, which covers every
character the claims exercise.
-/

namespace EasynewsBridge

/-- Code points of a Lean string literal, used to write concrete inputs. -/
def strCodes (s : String) : List Nat :=
  s.toList.map Char.toNat

/-- First `some` produced by applying `f` to the elements of a list in order. -/
def listFirstSome (l : List α) (f : α → Option β) : Option β :=
  match l with
  | [] => none
  | a :: rest =>
    match f a with
    | some b => some b
    | none => listFirstSome rest f

/-! ### URL-safe base64 (`base64.urlsafe_b64encode` / `urlsafe_b64decode`)

`encode_id` strips the trailing `=` padding; `decode_id` re-adds
`"=" * (-len(enc) % 4)` before decoding.  The URL-safe alphabet uses `-`
(code 45) and `_` (code 95); `=` is code 61.
-/

/-- Character (as a code point) of one base64 sextet, URL-safe alphabet. -/
def b64char (n : Nat) : Nat :=
  if n < 26 then 65 + n
  else if n < 52 then 97 + (n - 26)
  else if n < 62 then 48 + (n - 52)
  else if n = 62 then 45
  else 95

/-- Sextet value of a URL-safe base64 character; `none` for non-alphabet
characters (including `=`). -/
def b64val (c : Nat) : Option Nat :=
  if 65 ≤ c ∧ c ≤ 90 then some (c - 65)
  else if 97 ≤ c ∧ c ≤ 122 then some (c - 97 + 26)
  else if 48 ≤ c ∧ c ≤ 57 then some (c - 48 + 52)
  else if c = 45 then some 62
  else if c = 95 then some 63
  else none

/-- `base64.urlsafe_b64encode`: bytes to base64 characters, with `=` padding. -/
def b64encode : List Nat → List Nat
  | a :: b :: c :: rest =>
    b64char (a / 4) :: b64char (a % 4 * 16 + b / 16) ::
      b64char (b % 16 * 4 + c / 64) :: b64char (c % 64) :: b64encode rest
  | [a, b] => [b64char (a / 4), b64char (a % 4 * 16 + b / 16), b64char (b % 16 * 4), 61]
  | [a] => [b64char (a / 4), b64char (a % 4 * 16), 61, 61]
  | [] => []

/-- `base64.urlsafe_b64decode` on a fully padded input: groups of four
characters, `=` permitted only as the final one or two characters.
(The CPython decoder first discards characters outside the alphabet; this
model instead fails on them, which agrees on every input the theorems
touch.)  Excess bits in a final partial quantum are dropped, as CPython's
non-strict decoder does. -/
def b64decodeCore : List Nat → Option (List Nat)
  | c1 :: c2 :: c3 :: c4 :: rest =>
    match b64val c1, b64val c2 with
    | some v1, some v2 =>
      if c3 = 61 then
        if c4 = 61 ∧ rest = [] then some [v1 * 4 + v2 / 16] else none
      else
        match b64val c3 with
        | some v3 =>
          if c4 = 61 then
            if rest = [] then some [v1 * 4 + v2 / 16, v2 % 16 * 16 + v3 / 4] else none
          else
            match b64val c4 with
            | some v4 =>
              (b64decodeCore rest).map
                (fun t => (v1 * 4 + v2 / 16) :: (v2 % 16 * 16 + v3 / 4) :: (v3 % 4 * 64 + v4) :: t)
            | none => none
        | none => none
    | _, _ => none
  | [] => some []
  | _ => none

/-- Python `-n % 4`: the number of `=` characters `decode_id` re-adds. -/
def padLen (n : Nat) : Nat :=
  (4 - n % 4) % 4

/-- `.rstrip("=")`: drop the trailing run of `=` characters. -/
def stripEq (l : List Nat) : List Nat :=
  (l.reverse.dropWhile (fun c => c == 61)).reverse

/-! ### UTF-8 (`str.encode()` / `bytes.decode()`)

Python's codec rejects surrogate code points on encode and enforces the
usual strictness (no overlong forms, no surrogates, max `0x10FFFF`) on
decode. -/

/-- UTF-8 encoding of a single code point; `none` for surrogates and
out-of-range values (Python raises `UnicodeEncodeError`). -/
def utf8EncodeChar (c : Nat) : Option (List Nat) :=
  if c < 0x80 then some [c]
  else if c < 0x800 then some [0xC0 + c / 64, 0x80 + c % 64]
  else if c < 0x10000 then
    if 0xD800 ≤ c ∧ c ≤ 0xDFFF then none
    else some [0xE0 + c / 4096, 0x80 + c / 64 % 64, 0x80 + c % 64]
  else if c < 0x110000 then
    some [0xF0 + c / 262144, 0x80 + c / 4096 % 64, 0x80 + c / 64 % 64, 0x80 + c % 64]
  else none

/-- `str.encode()`: UTF-8 bytes of a code-point sequence. -/
def utf8Encode : List Nat → Option (List Nat)
  | [] => some []
  | c :: rest =>
    match utf8EncodeChar c, utf8Encode rest with
    | some b, some bs => some (b ++ bs)
    | _, _ => none

/-- One step of strict UTF-8 decoding: the code point at the head of the
byte list and the number of bytes it occupies, or `none` on malformed
input (truncated sequence, bad lead/continuation byte, overlong form,
surrogate, or value above `0x10FFFF`). -/
def utf8Step (l : List Nat) : Option (Nat × Nat) :=
  match l with
  | [] => none
  | b0 :: rest =>
    if b0 < 0x80 then some (b0, 1)
    else if b0 < 0xC2 then none
    else if b0 < 0xE0 then
      match rest with
      | b1 :: _ =>
        if 0x80 ≤ b1 ∧ b1 < 0xC0 then some ((b0 - 0xC0) * 64 + (b1 - 0x80), 2) else none
      | [] => none
    else if b0 < 0xF0 then
      match rest with
      | b1 :: b2 :: _ =>
        if (0x80 ≤ b1 ∧ b1 < 0xC0) ∧ (0x80 ≤ b2 ∧ b2 < 0xC0) then
          if (b0 - 0xE0) * 4096 + (b1 - 0x80) * 64 + (b2 - 0x80) < 0x800 ∨
              (0xD800 ≤ (b0 - 0xE0) * 4096 + (b1 - 0x80) * 64 + (b2 - 0x80) ∧
                (b0 - 0xE0) * 4096 + (b1 - 0x80) * 64 + (b2 - 0x80) ≤ 0xDFFF) then none
          else some ((b0 - 0xE0) * 4096 + (b1 - 0x80) * 64 + (b2 - 0x80), 3)
        else none
      | _ => none
    else if b0 < 0xF5 then
      match rest with
      | b1 :: b2 :: b3 :: _ =>
        if (0x80 ≤ b1 ∧ b1 < 0xC0) ∧ (0x80 ≤ b2 ∧ b2 < 0xC0) ∧ (0x80 ≤ b3 ∧ b3 < 0xC0) then
          if (b0 - 0xF0) * 262144 + (b1 - 0x80) * 4096 + (b2 - 0x80) * 64 + (b3 - 0x80) < 0x10000 ∨
              0x110000 ≤ (b0 - 0xF0) * 262144 + (b1 - 0x80) * 4096 + (b2 - 0x80) * 64 + (b3 - 0x80) then
            none
          else some ((b0 - 0xF0) * 262144 + (b1 - 0x80) * 4096 + (b2 - 0x80) * 64 + (b3 - 0x80), 4)
        else none
      | _ => none
    else none

/-- Strict UTF-8 decoding with explicit fuel (structural recursion, so
terms evaluate by reduction).  A step always consumes at least one byte,
so fuel equal to the input length never runs out and `max n 1 = n`. -/
def utf8DecodeAux : Nat → List Nat → Option (List Nat)
  | _, [] => some []
  | 0, _ :: _ => none
  | fuel + 1, b0 :: rest =>
    match utf8Step (b0 :: rest) with
    | some (c, n) => (utf8DecodeAux fuel ((b0 :: rest).drop (max n 1))).map (fun t => c :: t)
    | none => none

/-- `bytes.decode()`: strict UTF-8 decoding. -/
def utf8Decode (l : List Nat) : Option (List Nat) :=
  utf8DecodeAux l.length l

/-! ### JSON (`json.dumps(..., ensure_ascii=False)` / `json.loads`)

`encode_id` serializes a flat object whose values are strings, `null`, or
`true`; the model covers exactly that fragment of JSON (the parser rejects
numbers, arrays and nested objects, which `encode_id` never emits).
`json.dumps` uses the default separators `", "` and `": "` and escapes
`"` (34), `\` (92) and the control characters below 0x20. -/

/-- Scalar JSON values appearing in the selection payload. -/
inductive JScal where
  | jnull : JScal
  | jbool : Bool → JScal
  | jstr : List Nat → JScal
deriving DecidableEq, Repr

/-- A JSON object as an ordered association list (keys are code points). -/
abbrev JObj := List (List Nat × JScal)

/-- Hexadecimal digit character (lowercase, as CPython's json emits). -/
def hexDigit (n : Nat) : Nat :=
  if n < 10 then 48 + n else 87 + n

/-- Value of one hexadecimal digit character (json accepts both cases). -/
def hexVal (c : Nat) : Option Nat :=
  if 48 ≤ c ∧ c ≤ 57 then some (c - 48)
  else if 97 ≤ c ∧ c ≤ 102 then some (c - 97 + 10)
  else if 65 ≤ c ∧ c ≤ 70 then some (c - 65 + 10)
  else none

/-- Escaping of one string character, following CPython's `ESCAPE_DCT`
with `ensure_ascii=False`. -/
def escapeChar (c : Nat) : List Nat :=
  if c = 34 then [92, 34]
  else if c = 92 then [92, 92]
  else if c = 8 then [92, 98]
  else if c = 9 then [92, 116]
  else if c = 10 then [92, 110]
  else if c = 12 then [92, 102]
  else if c = 13 then [92, 114]
  else if c < 32 then [92, 117, 48, 48, hexDigit (c / 16), hexDigit (c % 16)]
  else [c]

/-- Body (between the quotes) of a serialized JSON string. -/
def dumpBody (s : List Nat) : List Nat :=
  s.flatMap escapeChar

/-- Serialized JSON string, quotes included. -/
def dumpString (s : List Nat) : List Nat :=
  34 :: dumpBody s ++ [34]

/-- Serialized scalar value. -/
def dumpScal : JScal → List Nat
  | .jnull => [110, 117, 108, 108]
  | .jbool true => [116, 114, 117, 101]
  | .jbool false => [102, 97, 108, 115, 101]
  | .jstr s => dumpString s

/-- Serialized object entries, joined by `", "` (44, 32), each entry
`key ++ ": " ++ value` (58, 32). -/
def dumpEntries : JObj → List Nat
  | [] => []
  | [(k, v)] => dumpString k ++ 58 :: 32 :: dumpScal v
  | (k, v) :: rest => dumpString k ++ 58 :: 32 :: dumpScal v ++ 44 :: 32 :: dumpEntries rest

/-- `json.dumps` of a payload object: `"{" ++ entries ++ "}"` (123, 125). -/
def dumpObj (o : JObj) : List Nat :=
  123 :: dumpEntries o ++ [125]

/-- The shortcut escape characters json.loads accepts after a backslash. -/
def escMap (e : Nat) : Option Nat :=
  if e = 34 then some 34
  else if e = 92 then some 92
  else if e = 47 then some 47
  else if e = 98 then some 8
  else if e = 102 then some 12
  else if e = 110 then some 10
  else if e = 114 then some 13
  else if e = 116 then some 9
  else none

/-- Value of a four-digit `\uXXXX` escape. -/
def hex4 (h1 h2 h3 h4 : Nat) : Option Nat :=
  match hexVal h1, hexVal h2, hexVal h3, hexVal h4 with
  | some a, some b, some c, some d => some (a * 4096 + b * 256 + c * 16 + d)
  | _, _, _, _ => none

/-- One step of JSON string-body parsing: `some (none, 1)` for the closing
quote, `some (some d, n)` for one decoded character occupying `n` input
characters, `none` on malformed input.  Raw control characters are
rejected (`json.loads` default `strict=True`); surrogate-pair combination
of `\u` escapes is not modelled (the serializer only emits `\u00XX`). -/
def jstrStep (l : List Nat) : Option (Option Nat × Nat) :=
  match l with
  | [] => none
  | c :: rest =>
    if c = 34 then some (none, 1)
    else if c = 92 then
      match rest with
      | e :: rest2 =>
        if e = 117 then
          match rest2 with
          | h1 :: h2 :: h3 :: h4 :: _ =>
            match hex4 h1 h2 h3 h4 with
            | some n => some (some n, 6)
            | none => none
          | _ => none
        else
          match escMap e with
          | some d => some (some d, 2)
          | none => none
      | [] => none
    else if c < 32 then none
    else some (some c, 1)

/-- JSON string-body parsing with explicit fuel (structural recursion).
A step always consumes at least one character, so fuel equal to the input
length never runs out and `max n 1 = n`. -/
def parseStringBodyAux : Nat → List Nat → Option (List Nat × List Nat)
  | _, [] => none
  | 0, _ :: _ => none
  | fuel + 1, c :: rest =>
    match jstrStep (c :: rest) with
    | some (none, n) => some ([], (c :: rest).drop (max n 1))
    | some (some d, n) =>
      (parseStringBodyAux fuel ((c :: rest).drop (max n 1))).map (fun p => (d :: p.1, p.2))
    | none => none

/-- Parse a JSON string body up to the closing quote, returning the
decoded code points and the remaining input. -/
def parseStringBody (l : List Nat) : Option (List Nat × List Nat) :=
  parseStringBodyAux l.length l

/-- JSON whitespace skipping (space, tab, newline, carriage return). -/
def skipWs (l : List Nat) : List Nat :=
  l.dropWhile (fun c => c == 32 || c == 9 || c == 10 || c == 13)

/-- Parse one scalar value of the emitted fragment. -/
def parseScal : List Nat → Option (JScal × List Nat)
  | 34 :: rest => (parseStringBody rest).map (fun p => (.jstr p.1, p.2))
  | 116 :: 114 :: 117 :: 101 :: rest => some (.jbool true, rest)
  | 102 :: 97 :: 108 :: 115 :: 101 :: rest => some (.jbool false, rest)
  | 110 :: 117 :: 108 :: 108 :: rest => some (.jnull, rest)
  | _ => none

/-- Parse one `"key": value` entry (no leading whitespace). -/
def parseEntry (l : List Nat) : Option ((List Nat × JScal) × List Nat) :=
  match l with
  | 34 :: rest =>
    match parseStringBody rest with
    | some (k, r1) =>
      match skipWs r1 with
      | 58 :: r2 =>
        match parseScal (skipWs r2) with
        | some (v, r3) => some ((k, v), r3)
        | none => none
      | _ => none
    | none => none
  | _ => none

/-- Parse a comma-separated run of entries up to the closing brace.  The
fuel argument bounds the number of entries; callers pass the input length,
which is slack since every entry consumes at least one character. -/
def parseEntriesLoop : Nat → List Nat → Option (JObj × List Nat)
  | 0, _ => none
  | fuel + 1, l =>
    match parseEntry l with
    | some (kv, r) =>
      match skipWs r with
      | 44 :: r2 =>
        (parseEntriesLoop fuel (skipWs r2)).map (fun p => (kv :: p.1, p.2))
      | 125 :: r2 => some ([kv], r2)
      | _ => none
    | none => none

/-- Parse an object body (input begins right after the `{`). -/
def parseObjBody (fuel : Nat) (l : List Nat) : Option (JObj × List Nat) :=
  match skipWs l with
  | c :: r => if c = 125 then some ([], r) else parseEntriesLoop fuel (c :: r)
  | [] => parseEntriesLoop fuel []

/-- `json.loads` on the emitted fragment: one object covering the whole
input. -/
def parseTop (l : List Nat) : Option JObj :=
  match skipWs l with
  | c :: r =>
    if c = 123 then
      match parseObjBody l.length r with
      | some (o, r2) => if skipWs r2 = [] then some o else none
      | none => none
    else none
  | [] => none

/-! ### The opaque selection token (`encode_id` / `decode_id`) -/

/-- The selection fields `encode_id` packs (server.py lines 85-97): string
fields `hash`, `filename`, `ext`, `title`, optional `sig`, and the sample
flag that is added to the payload only when truthy. -/
structure SelRecord where
  hash : List Nat
  filename : List Nat
  ext : List Nat
  sig : Option (List Nat)
  title : List Nat
  sample : Bool
deriving DecidableEq, Repr

/-- The payload dict `encode_id` serializes, in insertion order. -/
def toPayload (r : SelRecord) : JObj :=
  [(strCodes "hash", .jstr r.hash),
   (strCodes "filename", .jstr r.filename),
   (strCodes "ext", .jstr r.ext),
   (strCodes "sig", match r.sig with | some s => .jstr s | none => .jnull),
   (strCodes "title", .jstr r.title)] ++
  (if r.sample then [(strCodes "sample", .jbool true)] else [])

/-- `encode_id` (server.py lines 85-97): serialize the payload, UTF-8
encode, URL-safe base64 encode, strip trailing `=`.  `none` models the
`UnicodeEncodeError` Python raises on unencodable strings. -/
def encode_id (r : SelRecord) : Option (List Nat) :=
  (utf8Encode (dumpObj (toPayload r))).map (fun bs => stripEq (b64encode bs))

/-- `decode_id` (server.py lines 100-103): re-add `"=" * (-len(enc) % 4)`,
base64 decode, UTF-8 decode, `json.loads`.  `none` models the exception
raised on malformed input. -/
def decode_id (enc : List Nat) : Option JObj :=
  match b64decodeCore (enc ++ List.replicate (padLen enc.length) 61) with
  | none => none
  | some bytes =>
    match utf8Decode bytes with
    | none => none
    | some cps => parseTop cps

/-! ### The `/api?t=get` retrieval route (server.py lines 691-723)

Flask serves an uncaught exception in a view function as a plain
`500 Internal Server Error`; the model maps every modelled failure
(`decode_id` raising, a malformed payload crashing the handler) to that
status. -/

/-- Python truthiness of an ASCII whitespace character (`str.strip`,
`\s`). -/
def wsCode (c : Nat) : Bool :=
  c == 32 || c == 9 || c == 10 || c == 13 || c == 11 || c == 12

/-- ASCII model of `str.isalnum` on a code point. -/
def isAlnumCode (c : Nat) : Bool :=
  (48 ≤ c && c ≤ 57) || (65 ≤ c && c ≤ 90) || (97 ≤ c && c ≤ 122)

/-- `str.strip()` on code points. -/
def stripCodes (l : List Nat) : List Nat :=
  ((l.dropWhile wsCode).reverse.dropWhile wsCode).reverse

/-- `dict.get(key)` on the decoded payload; on duplicate keys `json.loads`
keeps the last occurrence. -/
def jlookup (d : JObj) (k : List Nat) : Option JScal :=
  (d.reverse.find? (fun kv => kv.1 == k)).map (fun kv => kv.2)

/-- Python truthiness of a payload field (`None`, `False` and the empty
string are falsy). -/
def truthyScal : Option JScal → Bool
  | none => false
  | some .jnull => false
  | some (.jbool b) => b
  | some (.jstr s) => !(s == [])

/-- The fixed placeholder manifest returned for sample tokens
(server.py lines 699-706). -/
def sampleNzbBytes : List Nat :=
  strCodes ("<?xml version=\"1.0\" encoding=\"UTF-8\"?><nzb xmlns=\"http://www.newzbin.com/DTD/2003/nzb\"><file subject=\"Sample Matrix Clip\" date=\"0\" poster=\"sample@example.com\"><groups><group>alt.binaries.sample</group></groups><segments><segment bytes=\"1024\" number=\"1\">sample</segment></segments></file></nzb>")

/-- Outcome of the retrieval route before any upstream POST is made. -/
inductive GetStep where
  | missingId : GetStep
  | decodeFailed : GetStep
  | sampleResp : List Nat → List Nat → GetStep
  | forward : JObj → GetStep
deriving DecidableEq, Repr

/-- The `t=get` branch up to the point where the upstream client would be
contacted: missing/empty id is a 400, a `decode_id` failure is an uncaught
exception, a payload with a truthy `sample` field short-circuits to the
fixed placeholder (filename hardcoded to `sample.nzb`), and anything else
is forwarded upstream. -/
def apiGet (idParam : Option (List Nat)) : GetStep :=
  match idParam with
  | none => .missingId
  | some enc =>
    if enc = [] then .missingId
    else
      match decode_id enc with
      | none => .decodeFailed
      | some d =>
        if truthyScal (jlookup d (strCodes "sample")) then
          .sampleResp sampleNzbBytes (strCodes "sample.nzb")
        else .forward d

/-- HTTP status of a pre-upstream route outcome. -/
def stepStatus : GetStep → Nat
  | .missingId => 400
  | .decodeFailed => 500
  | .sampleResp _ _ => 200
  | .forward _ => 200

/-- A 400-class (client error) HTTP status. -/
def is4xx (s : Nat) : Bool :=
  400 ≤ s && s < 500

/-- `bytes.replace(b'date=""', b'date="0"')` as performed by
`EasynewsClient.download_nzb` (easynews_client.py line 215): left-to-right,
non-overlapping replacement. -/
def replaceDateEmptyAux : Nat → List Nat → List Nat
  | _, [] => []
  | 0, b :: rest => b :: rest
  | fuel + 1, b :: rest =>
    if (b :: rest).take 7 = strCodes "date=\"\"" then
      strCodes "date=\"0\"" ++ replaceDateEmptyAux fuel ((b :: rest).drop 7)
    else
      b :: replaceDateEmptyAux fuel rest

/-- The replacement itself; fuel equal to the input length never runs
out. -/
def replaceDateEmpty (l : List Nat) : List Nat :=
  replaceDateEmptyAux l.length l

/-- Whether the byte string still contains a literal `date=""`. -/
def hasDatePat : List Nat → Bool
  | [] => false
  | b :: rest =>
    if (b :: rest).take 7 = strCodes "date=\"\"" then true else hasDatePat rest

/-- The bytes `EasynewsClient.download_nzb` writes to disk: the raw POST
response with every `date=""` normalized to `date="0"` (easynews_client.py
lines 204-219). -/
def downloadNzbBytes (raw : List Nat) : List Nat :=
  replaceDateEmpty raw

/-- The safe filename of the served manifest (server.py line 720): keep
alphanumerics and space/hyphen/underscore/dot, truncate to 200 characters,
strip surrounding whitespace, default to `"download"` when empty. -/
def safeName (title : List Nat) : List Nat :=
  let st := stripCodes ((title.filter (fun c => isAlnumCode c || c == 32 || c == 45 || c == 95 || c == 46)).take 200)
  if st = [] then strCodes "download" else st

/-- `d.get(key, default)` restricted to string values; a non-string truthy
value makes the handler crash downstream, modelled as `none`. -/
def fieldOr (d : JObj) (k : List Nat) (dflt : List Nat) : Option (List Nat) :=
  match jlookup d k with
  | none => some dflt
  | some (.jstr s) => some s
  | some .jnull => none
  | some (.jbool _) => none

/-- Fallback title `d.get("filename", "download") + d.get("ext", "")`. -/
def resolveTitleFallback (d : JObj) : Option (List Nat) :=
  match fieldOr d (strCodes "filename") (strCodes "download"),
        fieldOr d (strCodes "ext") [] with
  | some f, some e => some (f ++ e)
  | _, _ => none

/-- `title = d.get("title") or (d.get("filename", "download") +
d.get("ext", ""))` (server.py line 719); `none` models a crash on
non-string field types. -/
def resolveTitle (d : JObj) : Option (List Nat) :=
  match jlookup d (strCodes "title") with
  | some (.jstr s) => if s = [] then resolveTitleFallback d else some s
  | some .jnull => resolveTitleFallback d
  | none => resolveTitleFallback d
  | some (.jbool b) => if b then none else resolveTitleFallback d

/-- Final response of the non-sample retrieval path. -/
structure NzbResp where
  status : Nat
  content : List Nat
  fname : List Nat
deriving DecidableEq, Repr

/-- Completion of the forwarded retrieval (server.py lines 713-723): a
non-200 upstream POST becomes a 502; otherwise the upstream bytes are
served as-is with the derived `<safe title>.nzb` filename.  `none` models
the handler crashing (HTTP 500) on a malformed payload. -/
def completeGet (d : JObj) (upStatus : Nat) (upContent : List Nat) : Option NzbResp :=
  if upStatus ≠ 200 then some ⟨502, strCodes "Upstream error", []⟩
  else
    (resolveTitle d).map (fun t => ⟨200, upContent, safeName t ++ strCodes ".nzb"⟩)

/-! ### The search route's fallback page (server.py lines 558-618) -/

/-- The fields of one result item the fallback page exposes. -/
structure PageItem where
  hash : String
  filename : String
  ext : String
  sig : Option String
  size : Int
  title : String
  sample : Bool
  poster : Option String
  posted : Int
deriving DecidableEq, Repr

/-- The synthetic sample item built for fallback queries (server.py lines
588-600); `now` is the `int(time.time())` timestamp. -/
def sampleItem (now : Int) : PageItem :=
  ⟨"SAMPLEHASH1234567890", "sample.matrix.clip", ".mkv", none,
   700 * 1024 * 1024, "Sample Matrix Clip", true, some "sample@example.com", now⟩

/-- ASCII model of `str.lower` on one character. -/
def pyLowerChar (c : Char) : Char :=
  if 65 ≤ c.toNat ∧ c.toNat ≤ 90 then Char.ofNat (c.toNat + 32) else c

/-- ASCII model of `str.lower`. -/
def pyLower (s : String) : String :=
  String.mk (s.toList.map pyLowerChar)

/-- Python truthiness of a whitespace character, on `Char` (ASCII model of
`str.strip` / `str.split`). -/
def wsChar (c : Char) : Bool :=
  wsCode c.toNat

/-- `str.strip()` on a Lean string. -/
def pyStrip (s : String) : String :=
  String.mk (((s.toList.dropWhile wsChar).reverse.dropWhile wsChar).reverse)

/-- Whether a query triggers the fallback branch (server.py line 560):
`not q or q.lower() == "test"` after stripping. -/
def fallbackQuery (rawQuery : String) : Bool :=
  pyStrip rawQuery == "" || pyLower (pyStrip rawQuery) == "test"

/-- The search route's item page (server.py lines 587-618): on a fallback
query the page is the single synthetic sample item, built without the
upstream search or any filtering; otherwise it is the filtered upstream
result (abstracted here as `upstreamFiltered`).  The final step is the
`items[offset : offset + limit]` slice. -/
def searchPage (rawQuery : String) (upstreamFiltered : List PageItem)
    (offset limit : Nat) (now : Int) : List PageItem :=
  let items := if fallbackQuery rawQuery then [sampleItem now] else upstreamFiltered
  (items.drop offset).take limit

/-! ### Character helpers for the filtering pipeline (ASCII models) -/

/-- `str.strip()` on a character list. -/
def stripList (l : List Char) : List Char :=
  ((l.dropWhile wsChar).reverse.dropWhile wsChar).reverse

/-- ASCII model of `str.upper` on one character. -/
def pyUpperChar (c : Char) : Char :=
  if 97 ≤ c.toNat ∧ c.toNat ≤ 122 then Char.ofNat (c.toNat - 32) else c

/-- ASCII model of `str.upper`. -/
def pyUpper (s : String) : String :=
  String.mk (s.toList.map pyUpperChar)

/-- Numeric value of a run of ASCII digits (`int` on a digit-only
string). -/
def digitsToNat (l : List Char) : Nat :=
  l.foldl (fun a c => a * 10 + (c.toNat - 48)) 0

/-- Digit run with single underscores allowed between digits, as `int()`
accepts; the first character must already be known to be a digit. -/
def digitsUnd : Nat → List Char → Option Nat
  | acc, [] => some acc
  | acc, c :: rest =>
    if c.isDigit then digitsUnd (acc * 10 + (c.toNat - 48)) rest
    else if c = '_' then
      match rest with
      | d :: rest2 => if d.isDigit then digitsUnd (acc * 10 + (d.toNat - 48)) rest2 else none
      | [] => none
    else none

/-- Python `int(str)`: surrounding whitespace, an optional sign, then
digits with optional single underscores between them; `none` models
`ValueError`. -/
def pyIntChars (l : List Char) : Option Int :=
  match stripList l with
  | '+' :: d :: rest => if d.isDigit then (digitsUnd 0 (d :: rest)).map Int.ofNat else none
  | '-' :: d :: rest => if d.isDigit then (digitsUnd 0 (d :: rest)).map (fun n => -(n : Int)) else none
  | d :: rest => if d.isDigit then (digitsUnd 0 (d :: rest)).map Int.ofNat else none
  | [] => none

/-- Python `int()` on a Lean string. -/
def pyIntStr (s : String) : Option Int :=
  pyIntChars s.toList

/-! ### `_parse_duration_seconds` (server.py lines 198-231) -/

/-- The duration values reaching `_parse_duration_seconds`: `None`, a
number (modelled for integers), or a string. -/
inductive DurVal where
  | dNone : DurVal
  | dInt : Int → DurVal
  | dStr : String → DurVal
deriving DecidableEq, Repr

/-- `re.findall(r"(\d+)\s*<label>", text)`: all digit runs that are
followed, after optional whitespace, by the label character.  The regex
engine's scan is modelled directly: at a digit, the maximal run is taken
(backtracking inside the run can never succeed, since the character after
a shortened run is a digit, not whitespace or the label). -/
def findNumsAux (label : Char) : Nat → List Char → List Nat
  | _, [] => []
  | 0, _ :: _ => []
  | fuel + 1, c :: rest =>
    if c.isDigit then
      match (rest.dropWhile Char.isDigit).dropWhile wsChar with
      | l :: rest3 =>
        if l = label then
          digitsToNat (c :: rest.takeWhile Char.isDigit) :: findNumsAux label fuel rest3
        else findNumsAux label fuel (rest.dropWhile Char.isDigit)
      | [] => []
    else findNumsAux label fuel rest

/-- The scan itself; every step strictly shrinks the input, so fuel equal
to the input length never runs out. -/
def findNums (label : Char) (l : List Char) : List Nat :=
  findNumsAux label l.length l

/-- `_parse_duration_seconds`: a positive number is seconds; digit-only
text is seconds; labeled `h`/`m`/`s` components are summed when at least
one label matched; otherwise colon-separated text is read as `MM:SS` or
`HH:MM:SS`; anything else is unknown (`none`). -/
def _parse_duration_seconds (raw : DurVal) : Option Int :=
  match raw with
  | .dNone => none
  | .dInt n => if n ≤ 0 then none else some n
  | .dStr s =>
    let text := (pyLower (pyStrip s)).toList
    if text = [] then none
    else if text.all Char.isDigit then some (digitsToNat text : Int)
    else
      let hs := findNums 'h' text
      let ms := findNums 'm' text
      let ss := findNums 's' text
      if hs ≠ [] ∨ ms ≠ [] ∨ ss ≠ [] then
        some ((3600 * hs.sum + 60 * ms.sum + ss.sum : Nat) : Int)
      else if text.contains ':' then
        match (List.splitOn ':' text).mapM pyIntChars with
        | some [h, m, s2] => some (3600 * h + 60 * m + s2)
        | some [m, s2] => some (60 * m + s2)
        | some _ => none
        | none => none
      else none

/-! ### `_extract_quality` (server.py lines 292-308) -/

/-- Does `pat` occur at the head of the list? -/
def listStarts : List Char → List Char → Bool
  | [], _ => true
  | _ :: _, [] => false
  | p :: ps, c :: cs => p == c && listStarts ps cs

/-- Python `sub in s` on character lists. -/
def containsSeq (pat : List Char) : List Char → Bool
  | [] => listStarts pat []
  | c :: rest => listStarts pat (c :: rest) || containsSeq pat rest

/-- Python `sub in s` on strings. -/
def containsStr (s sub : String) : Bool :=
  containsSeq sub.toList s.toList

/-- The resolution alternatives of `_QUALITY_RE`, in the pattern's order. -/
def resList : List String :=
  ["2160", "1440", "1080", "720", "480", "360"]

/-- Try the resolution alternatives at the current position. -/
def tryRes (l : List Char) : Option (String × List Char) :=
  listFirstSome resList
    (fun r => if listStarts r.toList l then some (r, l.drop r.toList.length) else none)

/-- `_QUALITY_RE.search` on lowered text: the digits, then `\s*`, then an
optional `p`/`i` suffix (defaulting to `p`). -/
def qualityScanCode : List Char → Option String
  | [] => none
  | c :: rest =>
    match tryRes (c :: rest) with
    | some (digits, r1) =>
      match r1.dropWhile wsChar with
      | 'p' :: _ => some (digits ++ "p")
      | 'i' :: _ => some (digits ++ "i")
      | _ => some (digits ++ "p")
    | none => qualityScanCode rest

/-- The claim's literal reading of the same rule: the optional `p`/`i`
suffix must immediately follow the digits (no `\s*`). -/
def qualityScanLit : List Char → Option String
  | [] => none
  | c :: rest =>
    match tryRes (c :: rest) with
    | some (digits, r1) =>
      match r1 with
      | 'p' :: _ => some (digits ++ "p")
      | 'i' :: _ => some (digits ++ "i")
      | _ => some (digits ++ "p")
    | none => qualityScanLit rest

/-- The four ordered quality rules applied to one lowered text
(server.py lines 296-307). -/
def qualityOfText (t : String) : Option String :=
  let low := pyLower t
  if containsStr low "4k" then some "2160p"
  else
    match qualityScanCode low.toList with
    | some q => some q
    | none =>
      if containsStr low "uhd" then some "2160p"
      else if containsStr low "fhd" then some "1080p"
      else none

/-- `_extract_quality(*texts)`: first non-empty text whose rules match
wins; later texts are not consulted. -/
def _extract_quality : List (Option String) → Option String
  | [] => none
  | t :: rest =>
    match t with
    | none => _extract_quality rest
    | some s =>
      if s = "" then _extract_quality rest
      else
        match qualityOfText s with
        | some q => some q
        | none => _extract_quality rest

/-- Rule 1 of the claim: literal `"4k"` yields `2160p`. -/
def rule4k (low : String) : Option String :=
  if containsStr low "4k" then some "2160p" else none

/-- Rule 2, code form (with the regex's `\s*` before the suffix). -/
def ruleRes (low : String) : Option String :=
  qualityScanCode low.toList

/-- Rule 2, the claim's literal form (suffix immediately follows). -/
def ruleResLit (low : String) : Option String :=
  qualityScanLit low.toList

/-- Rule 3: literal `"uhd"` yields `2160p`. -/
def ruleUhd (low : String) : Option String :=
  if containsStr low "uhd" then some "2160p" else none

/-- Rule 4: literal `"fhd"` yields `1080p`. -/
def ruleFhd (low : String) : Option String :=
  if containsStr low "fhd" then some "1080p" else none

/-- The claim's ordered rules on one text, read literally (no whitespace
between the digits and the suffix). -/
def specQualityTextLit (t : String) : Option String :=
  listFirstSome [rule4k, ruleResLit, ruleUhd, ruleFhd] (fun r => r (pyLower t))

/-- The claim's ordered rules on one text, amended to allow the regex's
optional whitespace before the suffix. -/
def specQualityTextAmended (t : String) : Option String :=
  listFirstSome [rule4k, ruleRes, ruleUhd, ruleFhd] (fun r => r (pyLower t))

/-- The claim's per-argument loop, literal reading. -/
def specQualityLit (texts : List (Option String)) : Option String :=
  listFirstSome texts
    (fun t => match t with
      | some s => if s = "" then none else specQualityTextLit s
      | none => none)

/-- The claim's per-argument loop, amended reading. -/
def specQualityAmended (texts : List (Option String)) : Option String :=
  listFirstSome texts
    (fun t => match t with
      | some s => if s = "" then none else specQualityTextAmended s
      | none => none)

/-! ### `_sanitize_phrase` and `_matches_strict` (server.py lines 252-258,
342-357) -/

/-- ASCII model of the regex class `\w` (`_TOKEN_SPLIT_RE` is
`[^\w]+`). -/
def isWordChar (c : Char) : Bool :=
  c.isAlphanum || c == '_'

/-- `text.replace("&", " and ")`. -/
def ampExpand (l : List Char) : List Char :=
  l.flatMap (fun c => if c = '&' then " and ".toList else [c])

/-- `_TOKEN_SPLIT_RE.sub(" ", ...)`: every maximal run of non-word
characters becomes a single space. -/
def collapseNWAux : Nat → List Char → List Char
  | _, [] => []
  | 0, _ :: _ => []
  | fuel + 1, c :: rest =>
    if isWordChar c then c :: collapseNWAux fuel rest
    else ' ' :: collapseNWAux fuel (rest.dropWhile (fun x => !isWordChar x))

/-- The collapse itself; fuel equal to the input length never runs out. -/
def collapseNW (l : List Char) : List Char :=
  collapseNWAux l.length l

/-- `_sanitize_phrase`: map `&` to `" and "`, lower-case, collapse
non-word runs to single spaces, strip. -/
def _sanitize_phrase (s : String) : String :=
  if s = "" then ""
  else String.mk (stripList (collapseNW ((ampExpand s.toList).map pyLowerChar)))

/-- `str.split()`: whitespace-separated words, empties dropped. -/
def wordsListAux : Nat → List Char → List (List Char)
  | _, [] => []
  | 0, _ :: _ => []
  | fuel + 1, c :: rest =>
    if wsChar c then wordsListAux fuel rest
    else (c :: rest.takeWhile (fun x => !wsChar x)) ::
      wordsListAux fuel (rest.dropWhile (fun x => !wsChar x))

/-- The split itself; fuel equal to the input length never runs out. -/
def wordsList (l : List Char) : List (List Char) :=
  wordsListAux l.length l

/-- `str.split()` on a Lean string. -/
def pySplit (s : String) : List String :=
  (wordsList s.toList).map String.mk

/-- The window loop of `_matches_strict` (server.py lines 354-356):
`range(0, max(1, len(ct) - len(pt) + 1))` over `ct[idx : idx+len(pt)] ==
pt`. -/
def matchesLoop (ct pt : List String) : Bool :=
  (List.range (max 1 (ct.length - pt.length + 1))).any
    (fun idx => (ct.drop idx).take pt.length == pt)

/-- `_matches_strict(title, strict_phrase)`; the phrase argument is
already sanitized by the caller. -/
def _matches_strict (title : String) (strict_phrase : Option String) : Bool :=
  match strict_phrase with
  | none => true
  | some p =>
    if p = "" then true
    else
      let candidate := _sanitize_phrase title
      if candidate = "" then false
      else if candidate = p then true
      else
        let ptoks := pySplit p
        if ptoks = [] then true
        else matchesLoop (pySplit candidate) ptoks

/-- The spec's "contiguous subsequence": the phrase's token sequence
occurs as a contiguous block inside the title's token sequence. -/
def ContigSub (pt ct : List String) : Prop :=
  ∃ pre suf, ct = pre ++ pt ++ suf

/-- The claim's matching condition: both sides sanitized identically,
passing on equality or contiguous token-subsequence occurrence. -/
def specStrict (title rawPhrase : String) : Prop :=
  _sanitize_phrase title = _sanitize_phrase rawPhrase ∨
    ContigSub (pySplit (_sanitize_phrase rawPhrase)) (pySplit (_sanitize_phrase title))

/-! ### `_is_flagged_item` (server.py lines 261-277) -/

/-- The allow-list `_ALLOWED_VIDEO_EXTENSIONS` (server.py lines
165-177). -/
def _ALLOWED_VIDEO_EXTENSIONS : List String :=
  [".mkv", ".mp4", ".m4v", ".avi", ".ts", ".mov", ".wmv", ".mpg", ".mpeg", ".flv", ".webm"]

/-- The marker fields `_is_flagged_item` reads from a dict-shaped record;
each `Bool` is the Python truthiness of the corresponding field and the
type strings model `str(...)` of the `type`/`file_type` values. -/
structure FlagDict where
  passwd : Bool
  password : Bool
  virus : Bool
  typeF : String
  fileTypeF : String
deriving DecidableEq, Repr

/-- `bool(item.get("passwd") or item.get("password"))`; `none` models a
non-dict record, where the marker defaults to false. -/
def itemPasswd : Option FlagDict → Bool
  | some i => i.passwd || i.password
  | none => false

/-- `bool(item.get("virus"))`. -/
def itemVirus : Option FlagDict → Bool
  | some i => i.virus
  | none => false

/-- `str(item.get("type") or item.get("file_type") or "").upper()`. -/
def itemFileType : Option FlagDict → String
  | some i => pyUpper (if i.typeF = "" then i.fileTypeF else i.typeF)
  | none => ""

/-- `_is_flagged_item(item, ext, duration_seconds)`. -/
def _is_flagged_item (item : Option FlagDict) (ext : String) (dur : Option Int) : Bool :=
  if itemPasswd item || itemVirus item then true
  else if itemFileType item != "" && itemFileType item != "VIDEO" then true
  else if ext != "" && !(_ALLOWED_VIDEO_EXTENSIONS.contains (pyLower ext)) then true
  else
    match dur with
    | some d => decide (d < 60)
    | none => false

/-- The claim's exclusion condition for the flag filter. -/
def specFlagged (item : Option FlagDict) (ext : String) (dur : Option Int) : Prop :=
  itemPasswd item = true ∨ itemVirus item = true ∨
    (itemFileType item ≠ "" ∧ itemFileType item ≠ "VIDEO") ∨
    pyLower ext ∉ _ALLOWED_VIDEO_EXTENSIONS ∨
    (∃ d, dur = some d ∧ d < 60)

/-! ### `_extract_release_markers` (server.py lines 320-339) and the
structured-metadata checks of `filter_and_map` (lines 458-474) -/

/-- One match of `_SEASON_YEAR_RE`: a season/episode pair or a year. -/
inductive Marker where
  | mSE : Nat → Nat → Marker
  | mYear : Nat → Marker
deriving DecidableEq, Repr

/-- The greedy-with-backtracking candidates of `\d{1,2}` at the current
position: the two-digit reading first, then the one-digit reading. -/
def digits2then1 (l : List Char) : List (Nat × Nat × List Char) :=
  match l with
  | a :: b :: rest =>
    if a.isDigit then
      if b.isDigit then
        [((a.toNat - 48) * 10 + (b.toNat - 48), 2, rest), (a.toNat - 48, 1, b :: rest)]
      else [(a.toNat - 48, 1, b :: rest)]
    else []
  | [a] => if a.isDigit then [(a.toNat - 48, 1, [])] else []
  | [] => []

/-- The `s<season>e<episode>` alternative at the current position (on
lowered text), returning the marker and the number of characters
consumed. -/
def trySE (l : List Char) : Option (Marker × Nat) :=
  match l with
  | 's' :: r =>
    listFirstSome (digits2then1 r)
      (fun cand =>
        match cand.2.2 with
        | 'e' :: r2 =>
          match digits2then1 r2 with
          | (ev, n2, _) :: _ => some (.mSE cand.1 ev, 1 + cand.2.1 + 1 + n2)
          | [] => none
        | _ => none)
  | _ => none

/-- The `<season>x<episode>` alternative at the current position. -/
def tryX (l : List Char) : Option (Marker × Nat) :=
  listFirstSome (digits2then1 l)
    (fun cand =>
      match cand.2.2 with
      | 'x' :: r2 =>
        match digits2then1 r2 with
        | (ev, n2, _) :: _ => some (.mSE cand.1 ev, cand.2.1 + 1 + n2)
        | [] => none
      | _ => none)

/-- The `(19|20)\d{2}` year alternative at the current position. -/
def tryYear (l : List Char) : Option (Marker × Nat) :=
  match l with
  | a :: b :: c :: d :: _ =>
    if ((a = '1' ∧ b = '9') ∨ (a = '2' ∧ b = '0')) ∧ c.isDigit ∧ d.isDigit then
      some (.mYear ((a.toNat - 48) * 1000 + (b.toNat - 48) * 100 +
        (c.toNat - 48) * 10 + (d.toNat - 48)), 4)
    else none
  | _ => none

/-- `_SEASON_YEAR_RE` at one position: the season/episode alternatives
first, then the year alternative. -/
def tryMarkerAt (l : List Char) : Option (Marker × Nat) :=
  match trySE l with
  | some m => some m
  | none =>
    match tryX l with
    | some m => some m
    | none => tryYear l

/-- `finditer` scan: non-overlapping matches left to right.  The fuel is
the input length, which suffices because every step consumes at least one
character (`max n 1` makes this explicit; a successful match always
consumes at least three). -/
def scanMarkersAux : Nat → List Char → List Marker
  | 0, _ => []
  | _, [] => []
  | fuel + 1, c :: rest =>
    match tryMarkerAt (c :: rest) with
    | some (m, n) => m :: scanMarkersAux fuel ((c :: rest).drop (max n 1))
    | none => scanMarkersAux fuel rest

/-- All matches of `_SEASON_YEAR_RE` in the text. -/
def scanMarkers (l : List Char) : List Marker :=
  scanMarkersAux l.length l

/-- The extracted release markers of a title (or query). -/
structure RelMeta where
  year : Option Int
  season : Option Int
  episode : Option Int
  quality : Option String
deriving DecidableEq, Repr

/-- Fold one regex match into the marker record: first match wins, an
already-set field is never overwritten. -/
def applyMarker (acc : RelMeta) : Marker → RelMeta
  | .mSE s e =>
    let acc1 := if acc.season = none then { acc with season := some (s : Int) } else acc
    if acc1.episode = none then { acc1 with episode := some (e : Int) } else acc1
  | .mYear y => if acc.year = none then { acc with year := some (y : Int) } else acc

/-- `_extract_release_markers(text, quality_hint)`; `IGNORECASE` matching
is modelled by lowering the text before the scan. -/
def _extract_release_markers (text : String) (qualityHint : Option String) : RelMeta :=
  if text = "" then ⟨none, none, none, none⟩
  else
    let base := (scanMarkers (text.toList.map pyLowerChar)).foldl applyMarker ⟨none, none, none, none⟩
    let q :=
      match qualityHint with
      | some h => if h = "" then _extract_quality [some text] else some h
      | none => _extract_quality [some text]
    match q with
    | some qq => if qq = "" then base else { base with quality := some qq }
    | none => base

/-- Python truthiness of an optional integer field (`0` is falsy). -/
def truthyOI : Option Int → Bool
  | some n => !(n == 0)
  | none => false

/-- Python truthiness of an optional string field (`""` is falsy). -/
def truthyOS : Option String → Bool
  | some s => !(s == "")
  | none => false

/-- `if query_meta:` — the dict is truthy when any field was set. -/
def metaNonempty (qm : RelMeta) : Bool :=
  qm.year.isSome || qm.season.isSome || qm.episode.isSome || qm.quality.isSome

/-- The structured-metadata checks of `filter_and_map` (server.py lines
458-474): `true` means the candidate is kept. -/
def metaKeep (qm tm : RelMeta) : Bool :=
  if metaNonempty qm then
    if truthyOI qm.year && truthyOI tm.year && !(qm.year == tm.year) then false
    else if truthyOI qm.season && truthyOI tm.season && !(qm.season == tm.season) then false
    else if truthyOI qm.episode && truthyOI tm.episode && !(qm.episode == tm.episode) then false
    else if truthyOS qm.quality && truthyOS tm.quality &&
        !(pyLower (qm.quality.getD "") == pyLower (tm.quality.getD "")) then false
    else true
  else true

/-- The claim's per-field requirement: if present on both sides the values
must match (integers exactly). -/
def optIntReq (a b : Option Int) : Bool :=
  match a, b with
  | some x, some y => x == y
  | _, _ => true

/-- The claim's quality requirement: case-insensitive match when present
on both sides. -/
def optQualReq (a b : Option String) : Bool :=
  match a, b with
  | some x, some y => pyLower x == pyLower y
  | _, _ => true

/-- The claim read literally: "present" means the field is set. -/
def specMetaLit (qm tm : RelMeta) : Bool :=
  optIntReq qm.year tm.year && optIntReq qm.season tm.season &&
    optIntReq qm.episode tm.episode && optQualReq qm.quality tm.quality

/-- A zero value is demoted to "absent", matching Python truthiness. -/
def truthyIntVal : Option Int → Option Int
  | some n => if n = 0 then none else some n
  | none => none

/-- An empty string is demoted to "absent". -/
def truthyStrVal : Option String → Option String
  | some s => if s = "" then none else some s
  | none => none

/-- The claim amended: "present" means present and truthy (nonzero
integer, nonempty string). -/
def specMetaAmended (qm tm : RelMeta) : Bool :=
  optIntReq (truthyIntVal qm.year) (truthyIntVal tm.year) &&
    optIntReq (truthyIntVal qm.season) (truthyIntVal tm.season) &&
    optIntReq (truthyIntVal qm.episode) (truthyIntVal tm.episode) &&
    optQualReq (truthyStrVal qm.quality) (truthyStrVal tm.quality)

/-! ### The size filter of `filter_and_map` (server.py lines 419-427) -/

/-- The value of the record's `size` field: an integer, a string, or some
other type on which `int()` raises. -/
inductive SizeVal where
  | sInt : Int → SizeVal
  | sStr : String → SizeVal
  | sOther : SizeVal
deriving DecidableEq, Repr

/-- The integer size after coercion: strings are parsed with `int()`, any
failure (or unconvertible type) yields 0. -/
def resolveSize : SizeVal → Int
  | .sInt n => n
  | .sStr s => (pyIntStr s).getD 0
  | .sOther => 0

/-- The size filter: `if size < min_bytes: continue`; `true` keeps the
record. -/
def sizeKeep (minBytes : Int) (v : SizeVal) : Bool :=
  !decide (resolveSize v < minBytes)

/-! ### Helper lemmas: base64 layer -/

theorem b64val_b64char : ∀ n < 64, b64val (b64char n) = some n := by decide

theorem b64char_ne_61 (n : Nat) : b64char n ≠ 61 := by
  simp only [b64char]
  split <;> try omega
  split <;> try omega
  split <;> try omega
  split <;> omega

theorem dropWhile_append_of_exists {p : Nat → Bool} (A B : List Nat)
    (h : ∃ y ∈ A, p y = false) : (A ++ B).dropWhile p = A.dropWhile p ++ B := by
  induction A with
  | nil =>
    simp at h
  | cons a rest ih =>
    by_cases ha : p a
    · obtain ⟨y, hy, hyf⟩ := h
      rcases List.mem_cons.mp hy with h1 | h1
      · subst h1
        rw [ha] at hyf
        cases hyf
      · simp only [List.cons_append, List.dropWhile_cons, ha, if_true]
        exact ih ⟨y, h1, hyf⟩
    · simp [List.dropWhile_cons, ha]

theorem stripEq_append (l1 l2 : List Nat) (h : ∃ x ∈ l2, x ≠ 61) :
    stripEq (l1 ++ l2) = l1 ++ stripEq l2 := by
  obtain ⟨x, hx, hxne⟩ := h
  simp only [stripEq, List.reverse_append]
  rw [dropWhile_append_of_exists]
  · simp
  · exact ⟨x, by simpa using hx, by simpa using hxne⟩

theorem b64encode_head (a : Nat) (bs : List Nat) :
    ∃ t, b64encode (a :: bs) = b64char (a / 4) :: t := by
  match bs with
  | [] => exact ⟨_, rfl⟩
  | [b] => exact ⟨_, rfl⟩
  | b :: c :: rest => exact ⟨_, rfl⟩

theorem stripEq_group (g1 g2 g3 g4 : Nat) (h4 : g4 ≠ 61) :
    stripEq [g1, g2, g3, g4] = [g1, g2, g3, g4] := by
  have h4b : (g4 == 61) = false := by
    simpa using h4
  simp [stripEq, List.dropWhile, h4b]

theorem rePad_stripEq_b64encode (bs : List Nat) :
    stripEq (b64encode bs) ++ List.replicate (padLen (stripEq (b64encode bs)).length) 61
      = b64encode bs := by
  induction bs using b64encode.induct with
  | case4 => simp [b64encode, stripEq, padLen]
  | case3 a =>
    have h2 : (b64char (a % 4 * 16) == 61) = false := by
      simp [b64char_ne_61]
    simp [b64encode, stripEq, List.dropWhile, h2, padLen, List.replicate]
  | case2 a b =>
    have h3 : (b64char (b % 16 * 4) == 61) = false := by
      simp [b64char_ne_61]
    simp [b64encode, stripEq, List.dropWhile, h3, padLen, List.replicate]
  | case1 a b c rest ih =>
    have hgrp : b64encode (a :: b :: c :: rest) =
        [b64char (a / 4), b64char (a % 4 * 16 + b / 16), b64char (b % 16 * 4 + c / 64),
          b64char (c % 64)] ++ b64encode rest := by
      simp [b64encode]
    rw [hgrp]
    match rest with
    | [] =>
      simp only [b64encode, List.append_nil]
      rw [stripEq_group _ _ _ _ (b64char_ne_61 _)]
      simp [padLen]
    | r0 :: rs =>
      obtain ⟨t, ht⟩ := b64encode_head r0 rs
      have hne : ∃ x ∈ b64encode (r0 :: rs), x ≠ 61 := by
        rw [ht]
        exact ⟨b64char (r0 / 4), List.mem_cons_self _ _, b64char_ne_61 _⟩
      rw [stripEq_append _ _ hne]
      have hlen : ([b64char (a / 4), b64char (a % 4 * 16 + b / 16),
          b64char (b % 16 * 4 + c / 64), b64char (c % 64)] ++
            stripEq (b64encode (r0 :: rs))).length =
          4 + (stripEq (b64encode (r0 :: rs))).length := by
        simp
        omega
      rw [hlen]
      have hpad : padLen (4 + (stripEq (b64encode (r0 :: rs))).length) =
          padLen (stripEq (b64encode (r0 :: rs))).length := by
        simp [padLen, Nat.add_mod]
      rw [hpad, List.append_assoc, ih]

theorem b64decodeCore_encode (bs : List Nat) (h : ∀ x ∈ bs, x < 256) :
    b64decodeCore (b64encode bs) = some bs := by
  induction bs using b64encode.induct with
  | case4 => simp [b64encode, b64decodeCore]
  | case3 a =>
    have ha : a < 256 := h a (by simp)
    have h1 := b64val_b64char (a / 4) (by omega)
    have h2 := b64val_b64char (a % 4 * 16) (by omega)
    simp only [b64encode, b64decodeCore, h1, h2, if_pos rfl]
    simp
    omega
  | case2 a b =>
    have ha : a < 256 := h a (by simp)
    have hb : b < 256 := h b (by simp)
    have h1 := b64val_b64char (a / 4) (by omega)
    have h2 := b64val_b64char (a % 4 * 16 + b / 16) (by omega)
    have h3 := b64val_b64char (b % 16 * 4) (by omega)
    have hg3 : b64char (b % 16 * 4) ≠ 61 := b64char_ne_61 _
    simp only [b64encode, b64decodeCore, h1, h2, h3, if_neg hg3, if_pos rfl]
    simp
    constructor
    · omega
    · omega
  | case1 a b c rest ih =>
    have ha : a < 256 := h a (by simp)
    have hb : b < 256 := h b (by simp)
    have hc : c < 256 := h c (by simp)
    have h1 := b64val_b64char (a / 4) (by omega)
    have h2 := b64val_b64char (a % 4 * 16 + b / 16) (by omega)
    have h3 := b64val_b64char (b % 16 * 4 + c / 64) (by omega)
    have h4 := b64val_b64char (c % 64) (by omega)
    have hg3 : b64char (b % 16 * 4 + c / 64) ≠ 61 := b64char_ne_61 _
    have hg4 : b64char (c % 64) ≠ 61 := b64char_ne_61 _
    have hrec := ih (fun x hx => h x (by simp [hx]))
    simp only [b64encode, b64decodeCore, h1, h2, h3, h4, if_neg hg3, if_neg hg4, hrec,
      Option.map_some]
    simp
    refine ⟨by omega, by omega, by omega⟩

/-! ### Helper lemmas: UTF-8 layer -/

theorem utf8EncodeChar_lt (c : Nat) (b : List Nat) (h : utf8EncodeChar c = some b) :
    ∀ x ∈ b, x < 256 := by
  simp only [utf8EncodeChar] at h
  split at h
  · cases h
    intro x hx
    simp at hx
    omega
  · split at h
    · cases h
      intro x hx
      simp at hx
      rcases hx with h1 | h1 <;> omega
    · split at h
      · split at h
        · cases h
        · cases h
          intro x hx
          simp at hx
          rcases hx with h1 | h1 | h1 <;> omega
      · split at h
        · cases h
          intro x hx
          simp at hx
          rcases hx with h1 | h1 | h1 | h1 <;> omega
        · cases h

theorem utf8Encode_bytes_lt (s : List Nat) :
    ∀ bs, utf8Encode s = some bs → ∀ b ∈ bs, b < 256 := by
  induction s with
  | nil =>
    intro bs h
    simp only [utf8Encode] at h
    cases h
    intro b hb
    simp at hb
  | cons c rest ih =>
    intro bs h
    simp only [utf8Encode] at h
    cases hc : utf8EncodeChar c with
    | none =>
      rw [hc] at h
      cases h
    | some b0 =>
      rw [hc] at h
      cases hr : utf8Encode rest with
      | none =>
        rw [hr] at h
        cases h
      | some bs2 =>
        rw [hr] at h
        cases h
        intro b hb
        rcases List.mem_append.mp hb with h1 | h1
        · exact utf8EncodeChar_lt c b0 hc b h1
        · exact ih bs2 hr b h1

theorem utf8DecodeAux_cons (fuel : Nat) (b0 : Nat) (rest : List Nat) (c n : Nat)
    (h : utf8Step (b0 :: rest) = some (c, n)) :
    utf8DecodeAux (fuel + 1) (b0 :: rest) =
      (utf8DecodeAux fuel ((b0 :: rest).drop (max n 1))).map (fun t => c :: t) := by
  simp only [utf8DecodeAux, h]

theorem utf8Step_one (c : Nat) (hc : c < 0x80) (t : List Nat) :
    utf8Step (c :: t) = some (c, 1) := by
  simp only [utf8Step, if_pos hc]

theorem utf8Step_two (c : Nat) (h1 : 0x80 ≤ c) (h2 : c < 0x800) (t : List Nat) :
    utf8Step ((0xC0 + c / 64) :: (0x80 + c % 64) :: t) = some (c, 2) := by
  have e1 : ¬ (0xC0 + c / 64 < 0x80) := by omega
  have e2 : ¬ (0xC0 + c / 64 < 0xC2) := by omega
  have e3 : 0xC0 + c / 64 < 0xE0 := by omega
  have e4 : 0x80 ≤ 0x80 + c % 64 ∧ 0x80 + c % 64 < 0xC0 := by omega
  have e5 : (0xC0 + c / 64 - 0xC0) * 64 + (0x80 + c % 64 - 0x80) = c := by omega
  simp only [utf8Step, if_neg e1, if_neg e2, if_pos e3, if_pos e4, e5]

theorem utf8Step_three (c : Nat) (h1 : 0x800 ≤ c) (h2 : c < 0x10000)
    (h3 : ¬ (0xD800 ≤ c ∧ c ≤ 0xDFFF)) (t : List Nat) :
    utf8Step ((0xE0 + c / 4096) :: (0x80 + c / 64 % 64) :: (0x80 + c % 64) :: t) =
      some (c, 3) := by
  have e1 : ¬ (0xE0 + c / 4096 < 0x80) := by omega
  have e2 : ¬ (0xE0 + c / 4096 < 0xC2) := by omega
  have e3 : ¬ (0xE0 + c / 4096 < 0xE0) := by omega
  have e4 : 0xE0 + c / 4096 < 0xF0 := by omega
  have e5 : (0x80 ≤ 0x80 + c / 64 % 64 ∧ 0x80 + c / 64 % 64 < 0xC0) ∧
      (0x80 ≤ 0x80 + c % 64 ∧ 0x80 + c % 64 < 0xC0) := by omega
  have e6 : (0xE0 + c / 4096 - 0xE0) * 4096 + (0x80 + c / 64 % 64 - 0x80) * 64 +
      (0x80 + c % 64 - 0x80) = c := by omega
  have e7 : ¬ (c < 0x800 ∨ (0xD800 ≤ c ∧ c ≤ 0xDFFF)) := by
    push_neg
    refine ⟨by omega, fun hc => ?_⟩
    rcases h3 with h3
    omega
  simp only [utf8Step, if_neg e1, if_neg e2, if_neg e3, if_pos e4, if_pos e5, e6, if_neg e7]

theorem utf8Step_four (c : Nat) (h1 : 0x10000 ≤ c) (h2 : c < 0x110000) (t : List Nat) :
    utf8Step ((0xF0 + c / 262144) :: (0x80 + c / 4096 % 64) :: (0x80 + c / 64 % 64) ::
        (0x80 + c % 64) :: t) = some (c, 4) := by
  have e1 : ¬ (0xF0 + c / 262144 < 0x80) := by omega
  have e2 : ¬ (0xF0 + c / 262144 < 0xC2) := by omega
  have e3 : ¬ (0xF0 + c / 262144 < 0xE0) := by omega
  have e4 : ¬ (0xF0 + c / 262144 < 0xF0) := by omega
  have e5 : 0xF0 + c / 262144 < 0xF5 := by omega
  have e6 : (0x80 ≤ 0x80 + c / 4096 % 64 ∧ 0x80 + c / 4096 % 64 < 0xC0) ∧
      (0x80 ≤ 0x80 + c / 64 % 64 ∧ 0x80 + c / 64 % 64 < 0xC0) ∧
      (0x80 ≤ 0x80 + c % 64 ∧ 0x80 + c % 64 < 0xC0) := by omega
  have e7 : (0xF0 + c / 262144 - 0xF0) * 262144 + (0x80 + c / 4096 % 64 - 0x80) * 4096 +
      (0x80 + c / 64 % 64 - 0x80) * 64 + (0x80 + c % 64 - 0x80) = c := by omega
  have e8 : ¬ (c < 0x10000 ∨ 0x110000 ≤ c) := by omega
  simp only [utf8Step, if_neg e1, if_neg e2, if_neg e3, if_neg e4, if_pos e5, if_pos e6, e7,
    if_neg e8]

theorem utf8_rt_aux (s : List Nat) :
    ∀ fuel bs, utf8Encode s = some bs → bs.length ≤ fuel → utf8DecodeAux fuel bs = some s := by
  induction s with
  | nil =>
    intro fuel bs h _
    simp only [utf8Encode] at h
    cases h
    cases fuel <;> rfl
  | cons c rest ih =>
    intro fuel bs h hlen
    simp only [utf8Encode] at h
    cases hb : utf8EncodeChar c with
    | none =>
      rw [hb] at h
      cases h
    | some b0 =>
      rw [hb] at h
      cases hr : utf8Encode rest with
      | none =>
        rw [hr] at h
        cases h
      | some bs2 =>
        rw [hr] at h
        cases h
        simp only [utf8EncodeChar] at hb
        split at hb
        · cases hb
          simp only [List.cons_append, List.nil_append] at hlen ⊢
          cases fuel with
          | zero => simp at hlen
          | succ f =>
            rw [utf8DecodeAux_cons f _ _ _ _ (utf8Step_one c (by omega) _)]
            have hdec := ih f bs2 hr (by simp at hlen; omega)
            simp [hdec]
        · split at hb
          · cases hb
            simp only [List.cons_append, List.nil_append] at hlen ⊢
            cases fuel with
            | zero => simp at hlen
            | succ f =>
              rw [utf8DecodeAux_cons f _ _ _ _ (utf8Step_two c (by omega) (by omega) _)]
              have hdec := ih f bs2 hr (by simp at hlen; omega)
              simp [hdec]
          · split at hb
            · split at hb
              · cases hb
              · cases hb
                simp only [List.cons_append, List.nil_append] at hlen ⊢
                cases fuel with
                | zero => simp at hlen
                | succ f =>
                  rw [utf8DecodeAux_cons f _ _ _ _
                    (utf8Step_three c (by omega) (by omega) (by assumption) _)]
                  have hdec := ih f bs2 hr (by simp at hlen; omega)
                  simp [hdec]
            · split at hb
              · cases hb
                simp only [List.cons_append, List.nil_append] at hlen ⊢
                cases fuel with
                | zero => simp at hlen
                | succ f =>
                  rw [utf8DecodeAux_cons f _ _ _ _ (utf8Step_four c (by omega) (by omega) _)]
                  have hdec := ih f bs2 hr (by simp at hlen; omega)
                  simp [hdec]
              · cases hb

theorem utf8_rt (s : List Nat) : ∀ bs, utf8Encode s = some bs → utf8Decode bs = some s :=
  fun bs h => utf8_rt_aux s bs.length bs h (Nat.le_refl _)

/-! ### Helper lemmas: JSON layer -/

theorem hexVal_hexDigit : ∀ d < 16, hexVal (hexDigit d) = some d := by decide

theorem psbAux_cons (fuel : Nat) (c : Nat) (rest : List Nat) (d n : Nat)
    (h : jstrStep (c :: rest) = some (some d, n)) :
    parseStringBodyAux (fuel + 1) (c :: rest) =
      (parseStringBodyAux fuel ((c :: rest).drop (max n 1))).map (fun p => (d :: p.1, p.2)) := by
  simp only [parseStringBodyAux, h]

theorem psbAux_quote (fuel : Nat) (rest : List Nat) :
    parseStringBodyAux (fuel + 1) (34 :: rest) = some ([], rest) := by
  have h : jstrStep (34 :: rest) = some (none, 1) := by
    simp [jstrStep]
  simp only [parseStringBodyAux, h]
  rfl

theorem escapeChar_length_pos (c : Nat) : 1 ≤ (escapeChar c).length := by
  simp only [escapeChar]
  repeat' split
  all_goals simp

theorem jstrStep_raw (c : Nat) (rest : List Nat) (h34 : c ≠ 34) (h92 : c ≠ 92)
    (hc : ¬ c < 32) : jstrStep (c :: rest) = some (some c, 1) := by
  simp only [jstrStep, if_neg h34, if_neg h92, if_neg hc]

theorem jstrStep_esc (e d : Nat) (rest : List Nat) (he : escMap e = some d) :
    jstrStep (92 :: e :: rest) = some (some d, 2) := by
  have h117 : e ≠ 117 := by
    intro h
    subst h
    simp [escMap] at he
  simp [jstrStep, h117, he]

theorem jstrStep_u (c : Nat) (rest : List Nat) (hc : c < 32) :
    jstrStep (92 :: 117 :: 48 :: 48 :: hexDigit (c / 16) :: hexDigit (c % 16) :: rest) =
      some (some c, 6) := by
  have h0 : hexVal 48 = some 0 := by decide
  have h1 : hexVal (hexDigit (c / 16)) = some (c / 16) := hexVal_hexDigit _ (by omega)
  have h2 : hexVal (hexDigit (c % 16)) = some (c % 16) := hexVal_hexDigit _ (by omega)
  have hv : hex4 48 48 (hexDigit (c / 16)) (hexDigit (c % 16)) = some c := by
    simp only [hex4, h0, h1, h2]
    have e : 0 * 4096 + 0 * 256 + c / 16 * 16 + c % 16 = c := by omega
    rw [e]
  simp [jstrStep, hv]

theorem psbAux_step_esc (fuel : Nat) (c e : Nat) (hesc : escapeChar c = [92, e])
    (hmap : escMap e = some c) (B : List Nat) :
    parseStringBodyAux (fuel + 1) (escapeChar c ++ B) =
      (parseStringBodyAux fuel B).map (fun p => (c :: p.1, p.2)) := by
  rw [hesc, List.cons_append, List.cons_append, List.nil_append,
    psbAux_cons fuel _ _ _ _ (jstrStep_esc _ _ _ hmap)]
  rfl

theorem psbAux_step_raw (fuel : Nat) (c : Nat) (h34 : c ≠ 34) (h92 : c ≠ 92) (hc : ¬ c < 32)
    (B : List Nat) :
    parseStringBodyAux (fuel + 1) (escapeChar c ++ B) =
      (parseStringBodyAux fuel B).map (fun p => (c :: p.1, p.2)) := by
  have hesc : escapeChar c = [c] := by
    simp only [escapeChar, if_neg h34, if_neg h92]
    have e8 : c ≠ 8 := by omega
    have e9 : c ≠ 9 := by omega
    have e10 : c ≠ 10 := by omega
    have e12 : c ≠ 12 := by omega
    have e13 : c ≠ 13 := by omega
    simp [e8, e9, e10, e12, e13, hc]
  rw [hesc, List.cons_append, List.nil_append,
    psbAux_cons fuel _ _ _ _ (jstrStep_raw _ _ h34 h92 hc)]
  rfl

theorem psbAux_step_u (fuel : Nat) (c : Nat) (hc : c < 32) (h8 : c ≠ 8) (h9 : c ≠ 9)
    (h10 : c ≠ 10) (h12 : c ≠ 12) (h13 : c ≠ 13) (B : List Nat) :
    parseStringBodyAux (fuel + 1) (escapeChar c ++ B) =
      (parseStringBodyAux fuel B).map (fun p => (c :: p.1, p.2)) := by
  have h34 : c ≠ 34 := by omega
  have h92 : c ≠ 92 := by omega
  have hesc : escapeChar c = [92, 117, 48, 48, hexDigit (c / 16), hexDigit (c % 16)] := by
    simp [escapeChar, h34, h92, h8, h9, h10, h12, h13, hc]
  rw [hesc]
  rw [show ([92, 117, 48, 48, hexDigit (c / 16), hexDigit (c % 16)] ++ B) =
    92 :: 117 :: 48 :: 48 :: hexDigit (c / 16) :: hexDigit (c % 16) :: B by simp]
  rw [psbAux_cons fuel _ _ _ _ (jstrStep_u c B hc)]
  rfl

theorem psbAux_step (fuel : Nat) (c : Nat) (B : List Nat) :
    parseStringBodyAux (fuel + 1) (escapeChar c ++ B) =
      (parseStringBodyAux fuel B).map (fun p => (c :: p.1, p.2)) := by
  by_cases h34 : c = 34
  · subst h34
    exact psbAux_step_esc fuel 34 34 (by decide) (by decide) B
  · by_cases h92 : c = 92
    · subst h92
      exact psbAux_step_esc fuel 92 92 (by decide) (by decide) B
    · by_cases h8 : c = 8
      · subst h8
        exact psbAux_step_esc fuel 8 98 (by decide) (by decide) B
      · by_cases h9 : c = 9
        · subst h9
          exact psbAux_step_esc fuel 9 116 (by decide) (by decide) B
        · by_cases h10 : c = 10
          · subst h10
            exact psbAux_step_esc fuel 10 110 (by decide) (by decide) B
          · by_cases h12 : c = 12
            · subst h12
              exact psbAux_step_esc fuel 12 102 (by decide) (by decide) B
            · by_cases h13 : c = 13
              · subst h13
                exact psbAux_step_esc fuel 13 114 (by decide) (by decide) B
              · by_cases hlt : c < 32
                · exact psbAux_step_u fuel c hlt h8 h9 h10 h12 h13 B
                · exact psbAux_step_raw fuel c h34 h92 hlt B

theorem psb_rt_aux (s : List Nat) :
    ∀ fuel rest, (dumpBody s).length + 1 ≤ fuel →
      parseStringBodyAux fuel (dumpBody s ++ 34 :: rest) = some (s, rest) := by
  induction s with
  | nil =>
    intro fuel rest hf
    simp only [dumpBody, List.flatMap_nil, List.nil_append]
    cases fuel with
    | zero => simp [dumpBody] at hf
    | succ f => exact psbAux_quote f rest
  | cons c s2 ih =>
    intro fuel rest hf
    have hbody : dumpBody (c :: s2) = escapeChar c ++ dumpBody s2 := by
      simp [dumpBody]
    rw [hbody] at hf
    simp only [List.length_append] at hf
    have hpos := escapeChar_length_pos c
    cases fuel with
    | zero => omega
    | succ f =>
      rw [hbody, List.append_assoc, psbAux_step f c _, ih f rest (by omega)]
      rfl

theorem psb_rt (s : List Nat) :
    ∀ rest, parseStringBody (dumpBody s ++ 34 :: rest) = some (s, rest) := by
  intro rest
  have hb : (dumpBody s).length + 1 ≤ (dumpBody s ++ 34 :: rest).length := by
    simp only [List.length_append, List.length_cons]
    omega
  exact psb_rt_aux s _ rest hb



theorem parseScal_dump (v : JScal) (rest : List Nat) :
    parseScal (dumpScal v ++ rest) = some (v, rest) := by
  cases v with
  | jnull => rfl
  | jbool b =>
    cases b with
    | true => rfl
    | false => rfl
  | jstr s =>
    have h : dumpScal (.jstr s) ++ rest = 34 :: (dumpBody s ++ 34 :: rest) := by
      simp [dumpScal, dumpString]
    rw [h]
    show (parseStringBody (dumpBody s ++ 34 :: rest)).map (fun p => (JScal.jstr p.1, p.2))
      = some (.jstr s, rest)
    rw [psb_rt s rest]
    rfl

theorem skipWs_cons_not_ws (c : Nat) (rest : List Nat)
    (h : (c == 32 || c == 9 || c == 10 || c == 13) = false) :
    skipWs (c :: rest) = c :: rest := by
  simp only [skipWs, List.dropWhile_cons, h]
  simp

theorem dumpScal_head (v : JScal) : ∃ c t, dumpScal v = c :: t ∧
    (c == 32 || c == 9 || c == 10 || c == 13) = false := by
  cases v with
  | jnull => exact ⟨110, _, rfl, by decide⟩
  | jbool b =>
    cases b with
    | true => exact ⟨116, _, rfl, by decide⟩
    | false => exact ⟨102, _, rfl, by decide⟩
  | jstr s => exact ⟨34, _, rfl, by decide⟩

theorem skipWs_32_dumpScal (v : JScal) (rest : List Nat) :
    skipWs (32 :: dumpScal v ++ rest) = dumpScal v ++ rest := by
  obtain ⟨c, t, hv, hc⟩ := dumpScal_head v
  rw [hv]
  show skipWs (32 :: c :: (t ++ rest)) = c :: (t ++ rest)
  simp [skipWs, List.dropWhile_cons, hc]

theorem parseEntry_dump (k : List Nat) (v : JScal) (rest : List Nat) :
    parseEntry (dumpString k ++ 58 :: 32 :: (dumpScal v ++ rest)) = some ((k, v), rest) := by
  have h1 : dumpString k ++ 58 :: 32 :: (dumpScal v ++ rest) =
      34 :: (dumpBody k ++ 34 :: (58 :: 32 :: (dumpScal v ++ rest))) := by
    simp [dumpString]
  rw [h1]
  simp only [parseEntry]
  rw [psb_rt k _]
  have h2 : skipWs (58 :: 32 :: (dumpScal v ++ rest)) = 58 :: 32 :: (dumpScal v ++ rest) :=
    skipWs_cons_not_ws 58 _ (by decide)
  simp only [h2]
  have h3 : skipWs (32 :: (dumpScal v ++ rest)) = dumpScal v ++ rest :=
    skipWs_32_dumpScal v rest
  simp only [h3, parseScal_dump v rest]



theorem dumpEntries_cons_head (k : List Nat) (v : JScal) (t : JObj) :
    ∃ r, dumpEntries ((k, v) :: t) = 34 :: r := by
  cases t with
  | nil => exact ⟨_, rfl⟩
  | cons kv2 t' => exact ⟨_, rfl⟩

theorem parseEntriesLoop_dump (kvs : JObj) :
    ∀ fuel rest, kvs ≠ [] → kvs.length ≤ fuel →
      parseEntriesLoop fuel (dumpEntries kvs ++ 125 :: rest) = some (kvs, rest) := by
  induction kvs with
  | nil =>
    intro fuel rest hne
    exact absurd rfl hne
  | cons kv t ih =>
    intro fuel rest _ hlen
    obtain ⟨k, v⟩ := kv
    cases fuel with
    | zero =>
      simp at hlen
    | succ fuel =>
      cases t with
      | nil =>
        have hd : dumpEntries [(k, v)] ++ 125 :: rest =
            dumpString k ++ 58 :: 32 :: (dumpScal v ++ (125 :: rest)) := by
          simp [dumpEntries]
        rw [hd]
        simp only [parseEntriesLoop, parseEntry_dump k v (125 :: rest)]
        rw [skipWs_cons_not_ws 125 _ (by decide)]
      | cons kv2 t' =>
        have hd : dumpEntries ((k, v) :: kv2 :: t') ++ 125 :: rest =
            dumpString k ++ 58 :: 32 :: (dumpScal v ++
              (44 :: 32 :: (dumpEntries (kv2 :: t') ++ 125 :: rest))) := by
          simp [dumpEntries]
        rw [hd]
        simp only [parseEntriesLoop, parseEntry_dump k v _]
        rw [skipWs_cons_not_ws 44 _ (by decide)]
        obtain ⟨r, hr⟩ := dumpEntries_cons_head kv2.1 kv2.2 t'
        have h32 : skipWs (32 :: (dumpEntries (kv2 :: t') ++ 125 :: rest)) =
            dumpEntries (kv2 :: t') ++ 125 :: rest := by
          rw [hr]
          show skipWs (32 :: 34 :: (r ++ 125 :: rest)) = 34 :: (r ++ 125 :: rest)
          simp [skipWs, List.dropWhile_cons]
        simp only [h32]
        have hlen2 : (kv2 :: t').length ≤ fuel := by
          simp only [List.length_cons] at hlen ⊢
          omega
        rw [ih fuel rest (by simp) hlen2]
        rfl

theorem dumpEntries_length (kvs : JObj) : kvs.length ≤ (dumpEntries kvs).length := by
  induction kvs with
  | nil => simp [dumpEntries]
  | cons kv t ih =>
    obtain ⟨k, v⟩ := kv
    cases t with
    | nil =>
      have hlen : (dumpEntries [(k, v)]).length =
          (dumpString k).length + (2 + (dumpScal v).length) := by
        simp [dumpEntries]
        omega
      simp only [List.length_cons, List.length_nil]
      omega
    | cons kv2 t' =>
      rw [show dumpEntries ((k, v) :: kv2 :: t') =
        dumpString k ++ 58 :: 32 :: dumpScal v ++ 44 :: 32 :: dumpEntries (kv2 :: t') from by
          simp [dumpEntries]]
      simp only [List.length_append, List.length_cons]
      simp only [List.length_cons] at ih
      omega

theorem parseObjBody_dump (fuel : Nat) (kvs : JObj) (hfuel : kvs.length ≤ fuel) :
    parseObjBody fuel (dumpEntries kvs ++ [125]) = some (kvs, []) := by
  cases kvs with
  | nil =>
    simp [dumpEntries, parseObjBody, skipWs, List.dropWhile]
  | cons kv t =>
    obtain ⟨r, hr⟩ := dumpEntries_cons_head kv.1 kv.2 t
    have hr2 : dumpEntries (kv :: t) ++ [125] = 34 :: (r ++ [125]) := by
      rw [hr]
      simp
    rw [hr2]
    simp only [parseObjBody]
    rw [skipWs_cons_not_ws 34 _ (by decide)]
    have h125 : (34 : Nat) ≠ 125 := by omega
    simp only [if_neg h125]
    have hback : (34 : Nat) :: (r ++ [125]) = dumpEntries (kv :: t) ++ 125 :: [] := by
      rw [hr]
      simp
    rw [hback]
    exact parseEntriesLoop_dump (kv :: t) fuel [] (by simp) hfuel

theorem parseTop_dump (kvs : JObj) : parseTop (dumpObj kvs) = some kvs := by
  have hobj : dumpObj kvs = 123 :: (dumpEntries kvs ++ [125]) := by
    simp [dumpObj]
  rw [hobj]
  have hfuel : kvs.length ≤ (123 :: (dumpEntries kvs ++ [125])).length := by
    have h1 := dumpEntries_length kvs
    simp only [List.length_cons, List.length_append]
    omega
  simp only [parseTop]
  rw [skipWs_cons_not_ws 123 _ (by decide)]
  split
  · rename_i c r heq
    injection heq with h1 h2
    subst h1
    subst h2
    rw [if_pos rfl, parseObjBody_dump _ kvs hfuel]
    simp [skipWs]
  · rename_i heq
    cases heq

/-! ### Codec round trip -/

theorem decode_id_encode_id (r : SelRecord) (enc : List Nat) (h : encode_id r = some enc) :
    decode_id enc = some (toPayload r) := by
  simp only [encode_id] at h
  cases hu : utf8Encode (dumpObj (toPayload r)) with
  | none =>
    rw [hu] at h
    cases h
  | some bs =>
    rw [hu] at h
    simp only [Option.map_some'] at h
    cases h
    simp only [decode_id]
    rw [rePad_stripEq_b64encode bs]
    rw [b64decodeCore_encode bs (utf8Encode_bytes_lt _ bs hu)]
    simp only [utf8_rt _ bs hu]
    exact parseTop_dump (toPayload r)


/-! ### Helper lemmas: filtering and matching pipeline -/


theorem dropWhile_head_false {α} {p : α → Bool} {l : List α} {c : α} {t : List α}
    (h : l.dropWhile p = c :: t) : p c = false := by
  induction l with
  | nil => simp at h
  | cons a rest ih =>
    by_cases hp : p a
    · simp only [List.dropWhile_cons, hp, if_true] at h
      exact ih h
    · simp only [List.dropWhile_cons] at h
      rw [if_neg hp] at h
      have hac : a = c := (List.cons.injEq _ _ _ _ ▸ h).1
      rw [← hac]
      simpa using hp

theorem exists_append_dropWhile {α} (p : α → Bool) (l : List α) :
    ∃ pre, l = pre ++ l.dropWhile p :=
  ⟨l.takeWhile p, (List.takeWhile_append_dropWhile p l).symm⟩

theorem stripList_head_not_ws (l : List Char) (c : Char) (t : List Char)
    (h : stripList l = c :: t) : wsChar c = false := by
  obtain ⟨pre, hpre⟩ := exists_append_dropWhile wsChar (l.dropWhile wsChar).reverse
  have h2 : l.dropWhile wsChar =
      ((l.dropWhile wsChar).reverse.dropWhile wsChar).reverse ++ pre.reverse := by
    have h3 := congrArg List.reverse hpre
    simpa using h3
  rw [show ((l.dropWhile wsChar).reverse.dropWhile wsChar).reverse = c :: t from h] at h2
  have hdl : l.dropWhile wsChar = c :: (t ++ pre.reverse) := by
    simpa using h2
  exact dropWhile_head_false hdl

theorem sanitize_head (s : String) (h : _sanitize_phrase s ≠ "") :
    ∃ c t, (_sanitize_phrase s).toList = c :: t ∧ wsChar c = false := by
  by_cases hs : s = ""
  · subst hs
    simp [_sanitize_phrase] at h
  · have hval : _sanitize_phrase s =
        String.mk (stripList (collapseNW ((ampExpand s.toList).map pyLowerChar))) := by
      simp [_sanitize_phrase, hs]
    cases hl : stripList (collapseNW ((ampExpand s.toList).map pyLowerChar)) with
    | nil =>
      rw [hval, hl] at h
      simp at h
    | cons c t =>
      refine ⟨c, t, ?_, stripList_head_not_ws _ _ _ hl⟩
      rw [hval, hl]
      rfl

theorem pySplit_ne_nil (s : String) (c : Char) (t : List Char)
    (hl : s.toList = c :: t) (hc : wsChar c = false) : pySplit s ≠ [] := by
  simp only [pySplit, wordsList]
  rw [show s.toList = c :: t from hl]
  simp [wordsListAux, hc]

theorem matchesLoop_iff (ct pt : List String) :
    matchesLoop ct pt = true ↔ ContigSub pt ct := by
  simp only [matchesLoop, List.any_eq_true, List.mem_range]
  constructor
  · rintro ⟨i, _, hw⟩
    have hw2 : (ct.drop i).take pt.length = pt := by
      simpa using hw
    have h3 := List.take_append_drop pt.length (ct.drop i)
    rw [hw2] at h3
    have h4 := List.take_append_drop i ct
    refine ⟨ct.take i, (ct.drop i).drop pt.length, ?_⟩
    rw [List.append_assoc, h3, h4]
  · rintro ⟨pre, suf, hsplit⟩
    refine ⟨pre.length, ?_, ?_⟩
    · subst hsplit
      simp only [List.length_append]
      omega
    · subst hsplit
      rw [List.append_assoc, List.drop_left, List.take_left]
      simp

theorem contigSub_nil_iff (pt : List String) : ContigSub pt [] ↔ pt = [] := by
  constructor
  · rintro ⟨pre, suf, h⟩
    rcases List.append_eq_nil.mp h.symm with ⟨h1, h2⟩
    rcases List.append_eq_nil.mp h1 with ⟨_, h4⟩
    exact h4
  · rintro rfl
    exact ⟨[], [], rfl⟩

theorem contigSub_of_eq (pt ct : List String) (h : pt = ct) : ContigSub pt ct :=
  ⟨[], [], by simp [h]⟩



theorem matches_strict_iff_spec (title p : String) :
    (_matches_strict title (some (_sanitize_phrase p)) = true ↔ specStrict title p) := by
  by_cases hp : _sanitize_phrase p = ""
  · rw [hp]
    have hlhs : _matches_strict title (some "") = true := by
      simp [_matches_strict]
    rw [hlhs]
    simp only [true_iff, specStrict, hp]
    right
    exact ⟨[], pySplit (_sanitize_phrase title), by simp [pySplit, wordsList, wordsListAux]⟩
  · by_cases hc : _sanitize_phrase title = ""
    · have hlhs : _matches_strict title (some (_sanitize_phrase p)) = false := by
        simp [_matches_strict, hp, hc]
      rw [hlhs]
      obtain ⟨pc, pt2, hpl, hpc⟩ := sanitize_head p hp
      have hptoks : pySplit (_sanitize_phrase p) ≠ [] := pySplit_ne_nil _ pc pt2 hpl hpc
      constructor
      · intro hcontra
        cases hcontra
      · intro hspec
        rcases hspec with heq2 | hsub
        · exact (hp (heq2.symm.trans hc)).elim
        · rw [hc] at hsub
          have hct : pySplit "" = ([] : List String) := rfl
          rw [hct] at hsub
          exact (hptoks (contigSub_nil_iff _ |>.mp hsub)).elim
    · by_cases heq : _sanitize_phrase title = _sanitize_phrase p
      · have hlhs : _matches_strict title (some (_sanitize_phrase p)) = true := by
          simp [_matches_strict, hp, hc, heq]
        rw [hlhs]
        simp only [true_iff, specStrict]
        left
        exact heq
      · by_cases hptoks : pySplit (_sanitize_phrase p) = []
        · obtain ⟨pc, pt2, hpl, hpc⟩ := sanitize_head p hp
          exact absurd hptoks (pySplit_ne_nil _ pc pt2 hpl hpc)
        · have hlhs : _matches_strict title (some (_sanitize_phrase p)) =
              matchesLoop (pySplit (_sanitize_phrase title)) (pySplit (_sanitize_phrase p)) := by
            simp [_matches_strict, hp, hc, heq, hptoks]
          rw [hlhs, matchesLoop_iff]
          simp only [specStrict]
          constructor
          · intro h
            right
            exact h
          · intro h
            rcases h with h | h
            · exact absurd h heq
            · exact h



theorem is_flagged_iff_spec (item : Option FlagDict) (ext : String) (dur : Option Int) (hext : ext ≠ "") :
    (_is_flagged_item item ext dur = true ↔ specFlagged item ext dur) := by
  have hextb : (ext != "") = true := by
    simpa using hext
  have hmemiff : _ALLOWED_VIDEO_EXTENSIONS.contains (pyLower ext) = true ↔
      pyLower ext ∈ _ALLOWED_VIDEO_EXTENSIONS := List.elem_iff
  cases hpw : (itemPasswd item || itemVirus item) <;>
    cases hft : (itemFileType item != "" && itemFileType item != "VIDEO") <;>
      cases hmem : _ALLOWED_VIDEO_EXTENSIONS.contains (pyLower ext) <;>
        cases dur <;>
          simp_all [_is_flagged_item, specFlagged, Bool.or_eq_true, Bool.and_eq_true,
            bne_iff_ne, ne_eq, decide_eq_true_eq] <;>
          tauto

theorem is_flagged_exe_always (item : Option FlagDict) (dur : Option Int) :
    _is_flagged_item item ".exe" dur = true := by
  by_cases h1 : (itemPasswd item || itemVirus item) = true
  · simp [_is_flagged_item, h1]
  · by_cases h2 : (itemFileType item != "" && itemFileType item != "VIDEO") = true
    · simp [_is_flagged_item, h1, h2]
    · have h3 : ((".exe" : String) != "" &&
          !(_ALLOWED_VIDEO_EXTENSIONS.contains (pyLower ".exe"))) = true := by decide
      simp [_is_flagged_item, h1, h2, h3]
      left
      decide



theorem isDigit_bounds (c : Char) (h : c.isDigit = true) : 48 ≤ c.toNat ∧ c.toNat ≤ 57 := by
  simp [Char.isDigit] at h
  exact h

theorem pyLowerChar_digit (c : Char) (h : c.isDigit = true) : pyLowerChar c = c := by
  have h2 := isDigit_bounds c h
  simp only [pyLowerChar]
  rw [if_neg]
  omega

theorem wsChar_digit (c : Char) (h : c.isDigit = true) : wsChar c = false := by
  have h2 := isDigit_bounds c h
  simp [wsChar, wsCode]
  omega

theorem dropWhile_eq_self_of_none {α} {p : α → Bool} {l : List α}
    (h : ∀ c ∈ l, p c = false) : l.dropWhile p = l := by
  cases l with
  | nil => rfl
  | cons c t =>
    simp [List.dropWhile_cons, h c (List.mem_cons_self c t)]

theorem pyStrip_eq_self (s : String) (h : ∀ c ∈ s.toList, wsChar c = false) :
    pyStrip s = s := by
  simp only [pyStrip]
  rw [dropWhile_eq_self_of_none h]
  rw [dropWhile_eq_self_of_none (fun c hc => h c (List.mem_reverse.mp hc))]
  rw [List.reverse_reverse]
  rfl

theorem map_pyLowerChar_digits (l : List Char) (h : ∀ c ∈ l, c.isDigit = true) :
    l.map pyLowerChar = l := by
  induction l with
  | nil => rfl
  | cons c t ih =>
    simp only [List.map_cons]
    rw [pyLowerChar_digit c (h c (List.mem_cons_self c t)),
      ih (fun x hx => h x (List.mem_cons_of_mem _ hx))]

theorem pyLower_eq_self (s : String) (h : ∀ c ∈ s.toList, c.isDigit = true) :
    pyLower s = s := by
  simp only [pyLower]
  rw [map_pyLowerChar_digits s.toList h]
  rfl



theorem parse_duration_digit_text (s : String) (hne : s.toList ≠ [])
    (hdig : ∀ c ∈ s.toList, c.isDigit = true) :
    _parse_duration_seconds (.dStr s) = some ((digitsToNat s.toList : Nat) : Int) := by
  have hws : ∀ c ∈ s.toList, wsChar c = false := fun c hc => wsChar_digit c (hdig c hc)
  have hstrip : pyStrip s = s := pyStrip_eq_self s hws
  have hlow : pyLower s = s := pyLower_eq_self s hdig
  simp only [_parse_duration_seconds, hstrip, hlow]
  rw [if_neg hne]
  rw [if_pos (List.all_eq_true.mpr hdig)]

theorem intReq_eq (a b : Option Int) :
    optIntReq (truthyIntVal a) (truthyIntVal b) =
      !(truthyOI a && truthyOI b && !(a == b)) := by
  cases a with
  | none => cases b <;> simp [optIntReq, truthyIntVal, truthyOI]
  | some x =>
    cases b with
    | none => simp [optIntReq, truthyIntVal, truthyOI]
    | some y =>
      by_cases hx : x = 0 <;> by_cases hy : y = 0 <;>
        simp [optIntReq, truthyIntVal, truthyOI, hx, hy]

theorem qualReq_eq (a b : Option String) :
    optQualReq (truthyStrVal a) (truthyStrVal b) =
      !(truthyOS a && truthyOS b && !(pyLower (a.getD "") == pyLower (b.getD ""))) := by
  cases a with
  | none => cases b <;> simp [optQualReq, truthyStrVal, truthyOS]
  | some x =>
    cases b with
    | none => simp [optQualReq, truthyStrVal, truthyOS]
    | some y =>
      by_cases hx : x = "" <;> by_cases hy : y = "" <;>
        simp [optQualReq, truthyStrVal, truthyOS, hx, hy]

theorem metaKeep_eq_amended (qm tm : RelMeta) : metaKeep qm tm = specMetaAmended qm tm := by
  simp only [specMetaAmended, intReq_eq, qualReq_eq]
  by_cases hne : metaNonempty qm = true
  · simp only [metaKeep, hne, if_true]
    cases h1 : (truthyOI qm.year && truthyOI tm.year && !(qm.year == tm.year)) <;>
      cases h2 : (truthyOI qm.season && truthyOI tm.season && !(qm.season == tm.season)) <;>
        cases h3 : (truthyOI qm.episode && truthyOI tm.episode && !(qm.episode == tm.episode)) <;>
          cases h4 : (truthyOS qm.quality && truthyOS tm.quality &&
            !(pyLower (qm.quality.getD "") == pyLower (tm.quality.getD ""))) <;>
            simp [h1, h2, h3, h4]
  · obtain ⟨y, se, ep, q⟩ := qm
    simp only [metaNonempty, Bool.or_eq_true, Option.isSome] at hne
    push_neg at hne
    cases y <;> cases se <;> cases ep <;> cases q <;> simp_all [metaKeep, metaNonempty, truthyOI, truthyOS]



theorem qualityOfText_eq_amended (t : String) : qualityOfText t = specQualityTextAmended t := by
  cases h1 : containsStr (pyLower t) "4k" <;>
    cases h2 : qualityScanCode (pyLower t).toList <;>
      cases h3 : containsStr (pyLower t) "uhd" <;>
        cases h4 : containsStr (pyLower t) "fhd" <;>
          simp [qualityOfText, specQualityTextAmended, listFirstSome, rule4k, ruleRes,
            ruleUhd, ruleFhd, h1, h2, h3, h4] <;>
          (cases qualityScanCode (pyLower t).data <;> rfl)

theorem extract_quality_eq_amended (texts : List (Option String)) :
    _extract_quality texts = specQualityAmended texts := by
  induction texts with
  | nil => rfl
  | cons t rest ih =>
    cases t with
    | none =>
      simp only [_extract_quality, specQualityAmended, listFirstSome]
      exact ih
    | some s =>
      by_cases hs : s = ""
      · subst hs
        simp only [_extract_quality, specQualityAmended, listFirstSome, if_pos rfl]
        exact ih
      · simp only [_extract_quality, specQualityAmended, listFirstSome, if_neg hs]
        rw [← qualityOfText_eq_amended s]
        cases hq : qualityOfText s with
        | some q => rfl
        | none => exact ih

theorem extract_quality_first_wins (t : String) (ts : List (Option String)) (q : String)
    (hq : qualityOfText t = some q) : _extract_quality (some t :: ts) = some q := by
  by_cases hs : t = ""
  · subst hs
    rw [show qualityOfText "" = none from by decide] at hq
    cases hq
  · simp [_extract_quality, hs, hq]

theorem stripCodes_subset (l : List Nat) (c : Nat) (h : c ∈ stripCodes l) : c ∈ l := by
  simp only [stripCodes] at h
  rw [List.mem_reverse] at h
  have h2 := (List.dropWhile_sublist wsCode).subset h
  rw [List.mem_reverse] at h2
  exact (List.dropWhile_sublist wsCode).subset h2

theorem stripCodes_length_le (l : List Nat) : (stripCodes l).length ≤ l.length := by
  simp only [stripCodes, List.length_reverse]
  calc ((l.dropWhile wsCode).reverse.dropWhile wsCode).length
      ≤ (l.dropWhile wsCode).reverse.length := (List.dropWhile_sublist _).length_le
    _ = (l.dropWhile wsCode).length := List.length_reverse _
    _ ≤ l.length := (List.dropWhile_sublist _).length_le


/-! ### The claims -/

/-- C1: for every selection record `x` with string fields hash, filename,
ext, title, optional string sig and optional boolean sample flag, decoding
the opaque token produced by encoding `x` returns exactly the encoded
payload: `decode_id (encode_id x) = x`, where decoding re-adds base64
padding of length `(4 - len mod 4) mod 4` and reverses the URL-safe
encoding.  The hypothesis `encode_id r = some enc` scopes the statement to
records Python can encode (no lone surrogates). -/
theorem C1_token_round_trip (r : SelRecord) (enc : List Nat)
    (h : encode_id r = some enc) : decode_id enc = some (toPayload r) :=
  decode_id_encode_id r enc h

/-- Witness for C1 at a concrete record. -/
theorem C1_token_round_trip_witness :
    decode_id ((encode_id ⟨strCodes "abc123", strCodes "My File", strCodes ".mkv",
        some (strCodes "s1g"), strCodes "Title (2020)", true⟩).getD []) =
      some (toPayload ⟨strCodes "abc123", strCodes "My File", strCodes ".mkv",
        some (strCodes "s1g"), strCodes "Title (2020)", true⟩) :=
  C1_token_round_trip _ _ (by decide)

/-- C2 as amended: a request carrying an invalid or tampered opaque token
fails — but with an uncaught-exception 500 server error (there is no
try/except around `decode_id` in the route), not a 400-class response; no
partial recovery is attempted and no substitute record is forwarded. -/
theorem C2_token_decode_failure (enc : List Nat) (hne : enc ≠ [])
    (hdec : decode_id enc = none) :
    apiGet (some enc) = GetStep.decodeFailed ∧
    stepStatus (apiGet (some enc)) = 500 ∧
    (∀ d, apiGet (some enc) ≠ GetStep.forward d) ∧
    (∀ c f, apiGet (some enc) ≠ GetStep.sampleResp c f) := by
  have h1 : apiGet (some enc) = .decodeFailed := by
    simp [apiGet, hne, hdec]
  refine ⟨h1, by rw [h1]; rfl, ?_, ?_⟩
  · intro d
    rw [h1]
    intro hcontra
    cases hcontra
  · intro c f
    rw [h1]
    intro hcontra
    cases hcontra

/-- C2 counterexample: the malformed token `"AAAA"` (valid base64, not
JSON) makes the request fail with HTTP 500, which is not a 400-class
response as the claim requires. -/
theorem C2_counterexample :
    stepStatus (apiGet (some (strCodes "AAAA"))) = 500 ∧
    is4xx (stepStatus (apiGet (some (strCodes "AAAA")))) = false := by decide

/-- Witness for the amended C2 at the concrete token `"AAAA"`. -/
theorem C2_token_decode_failure_witness :
    stepStatus (apiGet (some (strCodes "AAAA"))) = 500 :=
  (C2_token_decode_failure (strCodes "AAAA") (by decide) (by decide)).2.1

/-- C3 as amended: on a non-sample manifest retrieval the route forwards
the upstream bytes to the caller unchanged — the `date=""` to `date="0"`
normalization exists only in the client's `download_nzb` file-saving
helper, which the route does not use — and the content-disposition
filename is the resolved title filtered to alphanumerics plus
space/hyphen/underscore/dot, truncated to 200 characters and stripped,
defaulting to `"download"` when empty. -/
theorem C3_manifest_retrieval (d : JObj) (t content : List Nat)
    (ht : resolveTitle d = some t) :
    completeGet d 200 content = some ⟨200, content, safeName t ++ strCodes ".nzb"⟩ ∧
    downloadNzbBytes content = replaceDateEmpty content ∧
    (safeName t = strCodes "download" ∨
      ((safeName t).length ≤ 200 ∧
        ∀ c ∈ safeName t,
          (isAlnumCode c || c == 32 || c == 45 || c == 95 || c == 46) = true)) := by
  refine ⟨?_, rfl, ?_⟩
  · simp [completeGet, ht]
  · by_cases h0 : stripCodes ((t.filter
        (fun c => isAlnumCode c || c == 32 || c == 45 || c == 95 || c == 46)).take 200) = []
    · left
      simp [safeName, h0]
    · right
      have hval : safeName t = stripCodes ((t.filter
          (fun c => isAlnumCode c || c == 32 || c == 45 || c == 95 || c == 46)).take 200) := by
        simp [safeName, h0]
      rw [hval]
      constructor
      · calc (stripCodes _).length ≤ ((t.filter _).take 200).length := stripCodes_length_le _
          _ ≤ 200 := List.length_take_le _ _
      · intro c hc
        have h1 := stripCodes_subset _ c hc
        have h2 : c ∈ t.filter
            (fun c => isAlnumCode c || c == 32 || c == 45 || c == 95 || c == 46) :=
          List.take_subset _ _ h1
        exact (List.mem_filter.mp h2).2

/-- C3 counterexample: a concrete upstream manifest containing the literal
`date=""` is served to the caller byte-for-byte; the claimed replacement
(which would change the bytes) is not applied on this path. -/
theorem C3_counterexample :
    (completeGet [(strCodes "title", .jstr (strCodes "My Movie"))] 200
        (strCodes "<file date=\"\" poster=\"x\"/>")).map (fun resp => resp.content) =
      some (strCodes "<file date=\"\" poster=\"x\"/>") ∧
    hasDatePat (strCodes "<file date=\"\" poster=\"x\"/>") = true ∧
    replaceDateEmpty (strCodes "<file date=\"\" poster=\"x\"/>") ≠
      strCodes "<file date=\"\" poster=\"x\"/>" := by decide

/-- Witness for the amended C3 at a concrete payload and body. -/
theorem C3_manifest_retrieval_witness :
    completeGet [(strCodes "title", .jstr (strCodes "My Movie"))] 200 (strCodes "abc") =
      some ⟨200, strCodes "abc", safeName (strCodes "My Movie") ++ strCodes ".nzb"⟩ :=
  (C3_manifest_retrieval [(strCodes "title", .jstr (strCodes "My Movie"))]
    (strCodes "My Movie") (strCodes "abc") (by decide)).1

/-- C4: the flag filter excludes a record iff a password or virus marker is
truthy, an explicit content-type is present and not the video category, the
extension (case-insensitive) is off the fixed allow-list, or the duration
is known and below 60 seconds; `.exe` is always excluded, duration 59 is
excluded while 60 is retained, and unknown duration alone never excludes.
The extension clause is read for records that have an extension
(`ext ≠ ""`; the callers only invoke the filter with a non-empty one). -/
theorem C4_flag_filter (item : Option FlagDict) (ext : String) (dur : Option Int)
    (hext : ext ≠ "") :
    (_is_flagged_item item ext dur = true ↔ specFlagged item ext dur) ∧
    _is_flagged_item item ".exe" dur = true ∧
    _is_flagged_item none ".mkv" (some 59) = true ∧
    _is_flagged_item none ".mkv" (some 60) = false ∧
    _is_flagged_item none ".mkv" none = false :=
  ⟨is_flagged_iff_spec item ext dur hext, is_flagged_exe_always item dur,
    by decide, by decide, by decide⟩

/-- Witness for C4 at a concrete record. -/
theorem C4_flag_filter_witness :
    _is_flagged_item (some ⟨true, false, false, "", ""⟩) ".exe" none = true :=
  (C4_flag_filter (some ⟨true, false, false, "", ""⟩) ".mkv" none (by decide)).2.1

/-- C5: duration parsing maps a positive number to that many seconds and a
non-positive or absent value to unknown; digit-only text to its integer
value in seconds (`"90"` yields 90, not 5400); labeled `h`/`m`/`s`
components to their weighted sum (`"1h30m"` yields 5400); colon-separated
text read as `MM:SS` or `HH:MM:SS` (`"01:02:03"` yields 3723, `"2:30"`
yields 150); and any other text to unknown (`"n/a"` yields none). -/
theorem C5_duration_parsing (s : String) (n : Int) (hne : s.toList ≠ [])
    (hdig : ∀ c ∈ s.toList, c.isDigit = true) :
    _parse_duration_seconds (.dInt n) = (if 0 < n then some n else none) ∧
    _parse_duration_seconds .dNone = none ∧
    _parse_duration_seconds (.dStr s) = some ((digitsToNat s.toList : Nat) : Int) ∧
    _parse_duration_seconds (.dStr "90") = some 90 ∧
    _parse_duration_seconds (.dStr "1h30m") = some 5400 ∧
    _parse_duration_seconds (.dStr "01:02:03") = some 3723 ∧
    _parse_duration_seconds (.dStr "2:30") = some 150 ∧
    _parse_duration_seconds (.dStr "n/a") = none := by
  refine ⟨?_, rfl, parse_duration_digit_text s hne hdig, by decide, by decide, by decide,
    by decide, by decide⟩
  simp only [_parse_duration_seconds]
  by_cases hn : n ≤ 0
  · rw [if_pos hn, if_neg (by omega)]
  · rw [if_neg hn, if_pos (by omega)]

/-- Witness for C5 at the digit-only string `"90"`. -/
theorem C5_duration_parsing_witness :
    _parse_duration_seconds (.dStr "90") = some ((digitsToNat ("90").toList : Nat) : Int) :=
  (C5_duration_parsing "90" 1 (by decide) (by decide)).2.2.1

/-- C6 as amended: quality extraction applies, per text argument, the
ordered rules — literal `"4k"` yields 2160p, else a resolution match of
2160/1440/1080/720/480/360 optionally followed (after optional whitespace,
per the regex `\s*`) by `p`/`i` yields the digits plus the suffix or `p`,
else `"uhd"` yields 2160p, else `"fhd"` yields 1080p — and the first text
argument yielding a match wins; a title with both `"4k"` and `"720p"`
yields 2160p and `"UHD Remux"` yields 2160p. -/
theorem C6_quality_extraction (texts : List (Option String)) (t : String)
    (ts : List (Option String)) (q : String) (hq : qualityOfText t = some q) :
    _extract_quality texts = specQualityAmended texts ∧
    _extract_quality (some t :: ts) = some q ∧
    _extract_quality [some "some 720p and 4k movie"] = some "2160p" ∧
    _extract_quality [some "UHD Remux"] = some "2160p" :=
  ⟨extract_quality_eq_amended texts, extract_quality_first_wins t ts q hq,
    by decide, by decide⟩

/-- C6 counterexample: on the text `"1080 i"` the code returns `"1080i"`
(the regex allows whitespace before the suffix), while the claim's literal
reading — suffix immediately follows the digits — predicts `"1080p"`. -/
theorem C6_counterexample :
    _extract_quality [some "1080 i"] = some "1080i" ∧
    specQualityLit [some "1080 i"] = some "1080p" ∧
    _extract_quality [some "1080 i"] ≠ specQualityLit [some "1080 i"] := by decide

/-- Witness for the amended C6 at a concrete text. -/
theorem C6_quality_extraction_witness :
    _extract_quality [some "4k"] = some "2160p" :=
  (C6_quality_extraction [] "4k" [] "2160p" (by decide)).2.1

/-- C7: strict-phrase matching sanitizes the candidate title and the query
phrase identically and passes exactly when the sanitized title equals the
sanitized phrase or the phrase's token sequence occurs contiguously inside
the title's token sequence; order matters, so `"blade runner 2049"`
matches `"Blade.Runner.2049.1080p"` while `"blade runner"` does not match
`"runner blade 2049"`. -/
theorem C7_strict_phrase (title p : String) :
    (_matches_strict title (some (_sanitize_phrase p)) = true ↔ specStrict title p) ∧
    _matches_strict "Blade.Runner.2049.1080p" (some (_sanitize_phrase "blade runner 2049")) =
      true ∧
    _matches_strict "runner blade 2049" (some (_sanitize_phrase "blade runner")) = false :=
  ⟨matches_strict_iff_spec title p, by decide, by decide⟩

/-- C8 as amended: for each of year, season, episode and quality, the
candidate is rejected exactly when the query value is present and truthy
(nonzero integer, nonempty string), the candidate value is present and
truthy, and the two differ (quality compared case-insensitively); a
candidate whose title yields year 2023 is rejected when year 2010 is
requested. -/
theorem C8_metadata_matching (qm tm : RelMeta) :
    metaKeep qm tm = specMetaAmended qm tm ∧
    metaKeep ⟨some 2010, none, none, none⟩
      (_extract_release_markers "Inception.2023.Fan.Edit" none) = false ∧
    (_extract_release_markers "Inception.2023.Fan.Edit" none).year = some 2023 :=
  ⟨metaKeep_eq_amended qm tm, by decide, by decide⟩

/-- C8 counterexample: a query with season 0 (falsy in Python) imposes no
requirement in the code, so a candidate with season 2 is kept, while the
claim — every field present in the query metadata must match — rejects
it. -/
theorem C8_counterexample :
    metaKeep ⟨none, some 0, none, none⟩ ⟨none, some 2, none, none⟩ = true ∧
    specMetaLit ⟨none, some 0, none, none⟩ ⟨none, some 2, none, none⟩ = false := by decide

/-- C9: the size filter passes a record exactly when `size ≥ min_bytes`;
equality passes, `min_bytes - 1` is rejected, and a size that fails
integer parsing is treated as 0. -/
theorem C9_size_filter (minB : Int) (v : SizeVal) :
    (sizeKeep minB v = true ↔ minB ≤ resolveSize v) ∧
    sizeKeep minB (.sInt minB) = true ∧
    sizeKeep minB (.sInt (minB - 1)) = false ∧
    (∀ s, pyIntStr s = none → resolveSize (.sStr s) = 0) ∧
    resolveSize (.sStr "12abc") = 0 := by
  refine ⟨?_, ?_, ?_, ?_, by decide⟩
  · constructor
    · intro h
      simp only [sizeKeep, Bool.not_eq_true', decide_eq_false_iff_not] at h
      omega
    · intro h
      simp only [sizeKeep, Bool.not_eq_true', decide_eq_false_iff_not]
      omega
  · simp only [sizeKeep, resolveSize, Bool.not_eq_true', decide_eq_false_iff_not]
    omega
  · simp only [sizeKeep, resolveSize, Bool.not_eq_false', decide_eq_true_eq]
    omega
  · intro s hs
    simp [resolveSize, hs]

/-- Witness for C9 at concrete sizes, discharging the parse-failure
hypothesis at `"12abc"`. -/
theorem C9_size_filter_witness :
    resolveSize (.sStr "12abc") = 0 :=
  (C9_size_filter 7 (.sInt 7)).2.2.2.1 "12abc" (by decide)

/-- C10: a search whose effective query is empty or case-insensitively
`"test"` builds its page without the upstream search (the page is the same
for every upstream result list) and, at default paging, contains exactly
the one synthetic sample item with fixed hash, sample flag and 700 MiB
size, bypassing all filtering; retrieving any token whose decoded payload
has a truthy sample flag returns the fixed placeholder manifest without
contacting the upstream service. -/
theorem C10_sample_fallback (rq : String) (upstream : List PageItem)
    (offset limit : Nat) (now : Int)
    (hq : pyStrip rq = "" ∨ pyLower (pyStrip rq) = "test")
    (hoff : offset = 0) (hlim : 1 ≤ limit) :
    searchPage rq upstream offset limit now = [sampleItem now] ∧
    (sampleItem now).hash = "SAMPLEHASH1234567890" ∧
    (sampleItem now).sample = true ∧
    (sampleItem now).size = 700 * 1024 * 1024 ∧
    (∀ enc d, decode_id enc = some d →
      truthyScal (jlookup d (strCodes "sample")) = true →
      apiGet (some enc) = GetStep.sampleResp sampleNzbBytes (strCodes "sample.nzb")) := by
  subst hoff
  have hfb : fallbackQuery rq = true := by
    simp only [fallbackQuery, Bool.or_eq_true, beq_iff_eq]
    rcases hq with h | h
    · exact Or.inl h
    · exact Or.inr h
  refine ⟨?_, rfl, rfl, rfl, ?_⟩
  · simp only [searchPage, hfb, if_true, List.drop_zero]
    exact List.take_of_length_le (by simpa using hlim)
  · intro enc d hdec htru
    have hne : enc ≠ [] := by
      intro he
      subst he
      rw [show decode_id [] = none from by decide] at hdec
      cases hdec
    simp [apiGet, hne, hdec, htru]

/-- Witness for C10 at the query `"test"` with default paging. -/
theorem C10_sample_fallback_witness :
    searchPage "test" [] 0 100 0 = [sampleItem 0] :=
  (C10_sample_fallback "test" [] 0 100 0 (Or.inr (by decide)) rfl (by decide)).1

end EasynewsBridge
